import Mathlib

/-!
# Verification of the mcpsol schema/discriminator/client library

A shallow embedding, in Lean 4, of the mcpsol repository's core code paths:

* `src/core/src/discriminator.rs` — SHA-256 based instruction discriminators,
* `src/core/src/schema.rs` — the schema data model, account suffixes, and the
  precomputed page cache (`CachedSchemaPages`),
* `src/core/src/json.rs` — the compact and paginated JSON encoders, the cursor
  formatter and the size estimator,
* `src/client/src/lib.rs` — the client-side decoded-tool accessors
  (`is_signer`, `is_writable`, `base_name`, `discriminator_bytes`,
  `required_params`), the pagination aggregator `list_tools_full`, and the
  call builder `build_instruction`.

Rust machine integers are modelled as `Nat` with explicit `% 2^w` where
overflow matters; Rust byte strings are modelled as `List Nat` of UTF-8 bytes;
fallible code returns `Option`/`Except`-style results, with a dedicated
constructor for a Rust panic where the source can panic.
-/

/-! ## UTF-8 encoding of strings (Rust `str::as_bytes`) -/

/-- UTF-8 encode a single unicode scalar value (given as a `Char`). -/
def utf8EncodeChar (c : Char) : List Nat :=
  let n := c.toNat
  if n < 0x80 then [n]
  else if n < 0x800 then
    [0xC0 ||| (n >>> 6), 0x80 ||| (n &&& 0x3F)]
  else if n < 0x10000 then
    [0xE0 ||| (n >>> 12), 0x80 ||| ((n >>> 6) &&& 0x3F), 0x80 ||| (n &&& 0x3F)]
  else
    [0xF0 ||| (n >>> 18), 0x80 ||| ((n >>> 12) &&& 0x3F),
     0x80 ||| ((n >>> 6) &&& 0x3F), 0x80 ||| (n &&& 0x3F)]

/-- The UTF-8 bytes of a string, as Rust's `str::as_bytes` produces them. -/
def utf8Encode (s : String) : List Nat :=
  s.data.flatMap utf8EncodeChar

/-! ## SHA-256 (the `sha2` crate primitive used by `discriminator.rs`)

Words are `Nat` reduced mod `2^32` at every arithmetic step. -/

/-- Truncate to a 32-bit word. -/
def w32 (n : Nat) : Nat := n % 4294967296

/-- 32-bit rotate right. -/
def rotr32 (n x : Nat) : Nat := w32 ((x >>> n) ||| (x <<< (32 - n)))

/-- SHA-256 small sigma 0. -/
def ssig0 (x : Nat) : Nat := (rotr32 7 x) ^^^ (rotr32 18 x) ^^^ (x >>> 3)

/-- SHA-256 small sigma 1. -/
def ssig1 (x : Nat) : Nat := (rotr32 17 x) ^^^ (rotr32 19 x) ^^^ (x >>> 10)

/-- SHA-256 big sigma 0. -/
def bsig0 (x : Nat) : Nat := (rotr32 2 x) ^^^ (rotr32 13 x) ^^^ (rotr32 22 x)

/-- SHA-256 big sigma 1. -/
def bsig1 (x : Nat) : Nat := (rotr32 6 x) ^^^ (rotr32 11 x) ^^^ (rotr32 25 x)

/-- SHA-256 choice function; 32-bit complement taken by xor with the mask. -/
def chFn (x y z : Nat) : Nat := (x &&& y) ^^^ ((x ^^^ 0xFFFFFFFF) &&& z)

/-- SHA-256 majority function. -/
def majFn (x y z : Nat) : Nat := (x &&& y) ^^^ (x &&& z) ^^^ (y &&& z)

/-- SHA-256 round constants. -/
def shaK : List Nat :=
  [0x428a2f98, 0x71374491, 0xb5c0fbcf, 0xe9b5dba5, 0x3956c25b, 0x59f111f1] ++
  [0x923f82a4, 0xab1c5ed5, 0xd807aa98, 0x12835b01, 0x243185be, 0x550c7dc3] ++
  [0x72be5d74, 0x80deb1fe, 0x9bdc06a7, 0xc19bf174, 0xe49b69c1, 0xefbe4786] ++
  [0x0fc19dc6, 0x240ca1cc, 0x2de92c6f, 0x4a7484aa, 0x5cb0a9dc, 0x76f988da] ++
  [0x983e5152, 0xa831c66d, 0xb00327c8, 0xbf597fc7, 0xc6e00bf3, 0xd5a79147] ++
  [0x06ca6351, 0x14292967, 0x27b70a85, 0x2e1b2138, 0x4d2c6dfc, 0x53380d13] ++
  [0x650a7354, 0x766a0abb, 0x81c2c92e, 0x92722c85, 0xa2bfe8a1, 0xa81a664b] ++
  [0xc24b8b70, 0xc76c51a3, 0xd192e819, 0xd6990624, 0xf40e3585, 0x106aa070] ++
  [0x19a4c116, 0x1e376c08, 0x2748774c, 0x34b0bcb5, 0x391c0cb3, 0x4ed8aa4a] ++
  [0x5b9cca4f, 0x682e6ff3, 0x748f82ee, 0x78a5636f, 0x84c87814, 0x8cc70208] ++
  [0x90befffa, 0xa4506ceb, 0xbef9a3f7, 0xc67178f2]

/-- SHA-256 working state (eight 32-bit words). -/
structure ShaState where
  a : Nat
  b : Nat
  c : Nat
  d : Nat
  e : Nat
  f : Nat
  g : Nat
  h : Nat
deriving Repr, DecidableEq

/-- SHA-256 initial hash value. -/
def shaH0 : ShaState :=
  ⟨0x6a09e667, 0xbb67ae85, 0x3c6ef372, 0xa54ff53a,
   0x510e527f, 0x9b05688c, 0x1f83d9ab, 0x5be0cd19⟩

/-- One SHA-256 compression round; input is the pair (round constant, word). -/
def shaRound (s : ShaState) (kw : Nat × Nat) : ShaState :=
  let t1 := w32 (s.h + bsig1 s.e + chFn s.e s.f s.g + kw.1 + kw.2)
  let t2 := w32 (bsig0 s.a + majFn s.a s.b s.c)
  ⟨w32 (t1 + t2), s.a, s.b, s.c, w32 (s.d + t1), s.e, s.f, s.g⟩

/-- Parse a 64-byte block into 16 big-endian 32-bit words. -/
def bytesToWordsBE : List Nat → List Nat
  | b0 :: b1 :: b2 :: b3 :: rest =>
      (((b0 * 256 + b1) * 256 + b2) * 256 + b3) :: bytesToWordsBE rest
  | _ => []

/-- Extend the 16-word schedule by `n` further words. -/
def extendW (ws : List Nat) : Nat → List Nat
  | 0 => ws
  | n + 1 =>
      let L := ws.length
      let nw := w32 (ssig1 (ws.getD (L - 2) 0) + ws.getD (L - 7) 0 +
                     ssig0 (ws.getD (L - 15) 0) + ws.getD (L - 16) 0)
      extendW (ws ++ [nw]) n

/-- SHA-256 compression of one 64-byte block into the running state. -/
def shaCompress (st : ShaState) (block : List Nat) : ShaState :=
  let ws := extendW (bytesToWordsBE block) 48
  let r := (shaK.zip ws).foldl shaRound st
  ⟨w32 (st.a + r.a), w32 (st.b + r.b), w32 (st.c + r.c), w32 (st.d + r.d),
   w32 (st.e + r.e), w32 (st.f + r.f), w32 (st.g + r.g), w32 (st.h + r.h)⟩

/-- A natural number as 8 big-endian bytes (the SHA-256 length field). -/
def be64 (n : Nat) : List Nat :=
  [(n >>> 56) % 256, (n >>> 48) % 256, (n >>> 40) % 256, (n >>> 32) % 256,
   (n >>> 24) % 256, (n >>> 16) % 256, (n >>> 8) % 256, n % 256]

/-- SHA-256 padding: a 0x80 byte, zeros to 56 mod 64, then the bit length. -/
def shaPad (msg : List Nat) : List Nat :=
  let L := msg.length
  let z := (64 + 56 - ((L + 1) % 64)) % 64
  msg ++ [0x80] ++ List.replicate z 0 ++ be64 (8 * L)

/-- Split a byte list into 64-byte blocks; the `Nat` is a structural-recursion
bound (any value at least the number of blocks works; we pass the length). -/
def chunks64Go : Nat → List Nat → List (List Nat)
  | _, [] => []
  | 0, _ => []
  | n + 1, l => l.take 64 :: chunks64Go n (l.drop 64)

/-- Split a byte list into 64-byte blocks. -/
def chunks64 (l : List Nat) : List (List Nat) :=
  chunks64Go l.length l

/-- A 32-bit word as 4 big-endian bytes. -/
def be32 (w : Nat) : List Nat :=
  [(w >>> 24) % 256, (w >>> 16) % 256, (w >>> 8) % 256, w % 256]

/-- The SHA-256 digest (32 bytes) of a byte string. -/
def sha256 (msg : List Nat) : List Nat :=
  let st := (chunks64 (shaPad msg)).foldl shaCompress shaH0
  [st.a, st.b, st.c, st.d, st.e, st.f, st.g, st.h].flatMap be32

/-! ## `src/core/src/discriminator.rs` -/

/-- Hash a preimage string to an 8-byte discriminator
(`hash_to_discriminator`: the first 8 bytes of the SHA-256 digest). -/
def hash_to_discriminator (preimage : String) : List Nat :=
  (sha256 (utf8Encode preimage)).take 8

/-- `instruction_discriminator`: first 8 bytes of sha256 of "global:" ++ name. -/
def instruction_discriminator (name : String) : List Nat :=
  hash_to_discriminator ("global:" ++ name)

/-- `account_discriminator`: first 8 bytes of sha256 of "account:" ++ name. -/
def account_discriminator (name : String) : List Nat :=
  hash_to_discriminator ("account:" ++ name)

/-- `LIST_TOOLS_DISCRIMINATOR` from `src/core/src/lib.rs`. -/
def LIST_TOOLS_DISCRIMINATOR : List Nat :=
  [0x42, 0x19, 0x5e, 0x6a, 0x55, 0xfd, 0x41, 0xc0]

/-! ## `src/core/src/schema.rs` — data model -/

/-- Supported argument types (`ArgType`). -/
inductive ArgType where
  | u8 | u16 | u32 | u64 | u128 | i8 | i16 | i32 | i64 | i128
  | bool | pubkey | string | bytes
deriving Repr, DecidableEq

/-- `ArgType::compact_name`. -/
def ArgType.compact_name : ArgType → String
  | .u8 => "u8"
  | .u16 => "u16"
  | .u32 => "u32"
  | .u64 => "u64"
  | .u128 => "u128"
  | .i8 => "i8"
  | .i16 => "i16"
  | .i32 => "i32"
  | .i64 => "i64"
  | .i128 => "i128"
  | .bool => "bool"
  | .pubkey => "pubkey"
  | .string => "str"
  | .bytes => "bytes"

/-- Account metadata for a tool (`McpAccountMeta`). -/
structure McpAccountMeta where
  name : String
  description : Option String
  is_signer : Bool
  is_writable : Bool
deriving Repr, DecidableEq

/-- `McpAccountMeta::suffix`: the compact-format suffix for the
(is_signer, is_writable) pair. -/
def McpAccountMeta.suffix (m : McpAccountMeta) : String :=
  match m.is_signer, m.is_writable with
  | true, true => "_sw"
  | true, false => "_s"
  | false, true => "_w"
  | false, false => ""

/-- Argument definition for a tool (`McpArg`). -/
structure McpArg where
  name : String
  description : Option String
  arg_type : ArgType
deriving Repr, DecidableEq

/-- An MCP tool definition (`McpTool`). -/
structure McpTool where
  name : String
  description : Option String
  discriminator : List Nat
  accounts : List McpAccountMeta
  args : List McpArg
deriving Repr, DecidableEq

/-- A complete MCP program schema (`McpSchema`). -/
structure McpSchema where
  name : String
  tools : List McpTool
deriving Repr, DecidableEq

/-- `McpToolBuilder::build`: the builder always derives the discriminator
from the tool name via `instruction_discriminator`. -/
def buildTool (name : String) (description : Option String)
    (accounts : List McpAccountMeta) (args : List McpArg) : McpTool :=
  { name := name, description := description,
    discriminator := instruction_discriminator name,
    accounts := accounts, args := args }

/-- A tool is builder-built iff its discriminator is derived from its name
(this is the invariant `McpToolBuilder::build` establishes). -/
def McpTool.Built (t : McpTool) : Prop :=
  t.discriminator = instruction_discriminator t.name

/-- A schema is builder-built iff each of its tools is. -/
def McpSchema.Built (s : McpSchema) : Prop :=
  ∀ t ∈ s.tools, t.Built

/-! ## `src/core/src/json.rs` — encoders, cursor format, size estimator -/

/-- `PROTOCOL_VERSION` from `src/core/src/lib.rs`. -/
def PROTOCOL_VERSION : String := "2024-11-05"

/-- `escape_json_into`, one character at a time: quote, backslash, newline,
carriage return and tab are escaped; everything else passes through. -/
def escapeChars : List Char → List Char
  | [] => []
  | c :: cs =>
    (if c = '"' then ['\\', '"']
     else if c = '\\' then ['\\', '\\']
     else if c = '\n' then ['\\', 'n']
     else if c = '\r' then ['\\', 'r']
     else if c = '\t' then ['\\', 't']
     else [c]) ++ escapeChars cs

/-- `escape_json_into` as a string-to-string function. -/
def escape_json (s : String) : String := String.mk (escapeChars s.data)

/-- The `HEX_CHARS` table of `discriminator_to_hex` (the byte string
`b"0123456789abcdef"`, held here as its characters). -/
def HEX_CHARS : List Char :=
  ("0123456789abcdef" : String).data

/-- One nibble as a lowercase hex character. -/
def hexChar (n : Nat) : Char := HEX_CHARS.getD n '0'

/-- `discriminator_to_hex`: each byte as two lowercase hex characters. -/
def discriminator_to_hex (d : List Nat) : String :=
  String.mk (d.flatMap (fun b => [hexChar (b >>> 4), hexChar (b &&& 0x0f)]))

/-- The digit-filling loop of `format_cursor` (3-byte buffer, filled from the
right while the number is nonzero and slots remain). -/
def formatCursorGo : Nat → Nat → List Char → List Char
  | _, 0, acc => acc
  | num, i + 1, acc =>
      if num = 0 then acc
      else formatCursorGo (num / 10) i (Char.ofNat (48 + num % 10) :: acc)

/-- `format_cursor`. -/
def format_cursor (n : Nat) : String :=
  if n = 0 then "0" else String.mk (formatCursorGo n 3 [])

/-- Join strings with commas; this is what the source's
`if !first { json.push(',') }` loops amount to. -/
def joinComma : List String → String
  | [] => ""
  | [x] => x
  | x :: xs => x ++ "," ++ joinComma xs

/-- One account entry of the verbose `parameters` object. -/
def verboseAccountEntry (acc : McpAccountMeta) : String :=
  "\"" ++ escape_json acc.name ++ "\":\x7b\"type\":\"pubkey\"" ++
  (if acc.is_signer then ",\"signer\":true" else "") ++
  (if acc.is_writable then ",\"writable\":true" else "") ++
  (match acc.description with
   | some d => ",\"description\":\"" ++ escape_json d ++ "\""
   | none => "") ++
  "\x7d"

/-- One argument entry of the verbose `parameters` object. -/
def verboseArgEntry (arg : McpArg) : String :=
  "\"" ++ escape_json arg.name ++ "\":\x7b\"type\":\"" ++
  arg.arg_type.compact_name ++ "\"" ++
  (match arg.description with
   | some d => ",\"description\":\"" ++ escape_json d ++ "\""
   | none => "") ++
  "\x7d"

/-- `generate_verbose_tool`: one tool with full keys and descriptions. -/
def generate_verbose_tool (tool : McpTool) : String :=
  "\x7b\"name\":\"" ++ escape_json tool.name ++ "\"" ++
  (match tool.description with
   | some d => ",\"description\":\"" ++ escape_json d ++ "\""
   | none => "") ++
  ",\"discriminator\":\"" ++ discriminator_to_hex tool.discriminator ++ "\"" ++
  (if tool.accounts.isEmpty && tool.args.isEmpty then ""
   else ",\"parameters\":\x7b" ++
     joinComma (tool.accounts.map verboseAccountEntry ++
                tool.args.map verboseArgEntry) ++ "\x7d") ++
  "\x7d"

/-- `generate_paginated_schema`: one page per call, one tool per page;
`cursor` models the `u8` page index. -/
def generate_paginated_schema (schema : McpSchema) (cursor : Nat) : String :=
  "\x7b\"v\":\"" ++ PROTOCOL_VERSION ++ "\",\"name\":\"" ++
  escape_json schema.name ++ "\",\"tools\":[" ++
  (match schema.tools.get? cursor with
   | some tool => generate_verbose_tool tool
   | none => "") ++
  "]" ++
  (if cursor + 1 < schema.tools.length then
     ",\"nextCursor\":\"" ++ format_cursor (cursor + 1) ++ "\""
   else "") ++
  "\x7d"

/-- `generate_paginated_schema_bytes`. -/
def generate_paginated_schema_bytes (schema : McpSchema) (cursor : Nat) : List Nat :=
  utf8Encode (generate_paginated_schema schema cursor)

/-- One account entry of the compact `p` object (escaped name plus suffix). -/
def compactAccountEntry (acc : McpAccountMeta) : String :=
  "\"" ++ escape_json acc.name ++ acc.suffix ++ "\":\"pubkey\""

/-- One argument entry of the compact `p` object. -/
def compactArgEntry (arg : McpArg) : String :=
  "\"" ++ escape_json arg.name ++ "\":\"" ++ arg.arg_type.compact_name ++ "\""

/-- The `required` keys collected by `generate_tool_json`: escaped account
names with their suffixes, then escaped argument names. -/
def requiredKeys (tool : McpTool) : List String :=
  tool.accounts.map (fun a => escape_json a.name ++ a.suffix) ++
  tool.args.map (fun g => escape_json g.name)

/-- `generate_tool_json`: one tool of the compact schema. -/
def generate_tool_json (tool : McpTool) : String :=
  "\x7b\"n\":\"" ++ escape_json tool.name ++ "\"" ++
  (match tool.description with
   | some d => ",\"i\":\"" ++ escape_json d ++ "\""
   | none => "") ++
  ",\"d\":\"" ++ discriminator_to_hex tool.discriminator ++
  (if tool.accounts.isEmpty && tool.args.isEmpty then "\"\x7d"
   else
     "\",\"p\":\x7b" ++
     joinComma (tool.accounts.map compactAccountEntry ++
                tool.args.map compactArgEntry) ++
     "\x7d,\"r\":[" ++
     joinComma ((requiredKeys tool).map (fun k => "\"" ++ k ++ "\"")) ++
     "]\x7d")

/-- `generate_compact_schema`: the whole catalog in one document. -/
def generate_compact_schema (schema : McpSchema) : String :=
  "\x7b\"v\":\"" ++ PROTOCOL_VERSION ++ "\",\"name\":\"" ++
  escape_json schema.name ++ "\",\"tools\":[" ++
  joinComma (schema.tools.map generate_tool_json) ++
  "]\x7d"

/-- `generate_schema_bytes`. -/
def generate_schema_bytes (schema : McpSchema) : List Nat :=
  utf8Encode (generate_compact_schema schema)

/-- Rust `String::len`: the UTF-8 byte length. -/
def byteLen (s : String) : Nat := (utf8Encode s).length

/-- `estimate_single_tool_size` (the per-loop additions written as sums). -/
def estimate_single_tool_size (tool : Option McpTool) : Nat :=
  match tool with
  | none => 0
  | some t =>
      30 + byteLen t.name + 16 +
      (match t.description with
       | some d => byteLen d + 6
       | none => 0) +
      (t.accounts.map (fun a => byteLen a.name + 15)).sum +
      (t.args.map (fun g => byteLen g.name + 10)).sum

/-- `estimate_schema_size`. -/
def estimate_schema_size (schema : McpSchema) : Nat :=
  50 + byteLen schema.name +
  (schema.tools.map (fun t => estimate_single_tool_size (some t))).sum

/-! ## `src/core/src/schema.rs` — `CachedSchemaPages` -/

/-- Pre-computed paginated pages (`CachedSchemaPages`). -/
structure CachedSchemaPages where
  pages : List (List Nat)
deriving Repr, DecidableEq

/-- `CachedSchemaPages::from_schema`: one page per tool (at least one page);
the loop index is cast `as u8` before generation, hence the `% 256`. -/
def CachedSchemaPages.from_schema (schema : McpSchema) : CachedSchemaPages :=
  ⟨(List.range (max schema.tools.length 1)).map
     (fun cursor => generate_paginated_schema_bytes schema (cursor % 256))⟩

/-- `CachedSchemaPages::get_page`: the cached buffer, or empty when the
cursor is out of bounds. -/
def CachedSchemaPages.get_page (c : CachedSchemaPages) (cursor : Nat) : List Nat :=
  c.pages.getD cursor []

/-- `CachedSchemaPages::num_pages`. -/
def CachedSchemaPages.num_pages (c : CachedSchemaPages) : Nat :=
  c.pages.length

/-! ## `src/client/src/lib.rs` — the client library

JSON values follow the serde_json data model restricted to the forms the
schema documents use (strings, objects, arrays, booleans, null); objects are
insertion-ordered association lists. Rust strings are Lean `String`s; where
the source works on raw bytes (hex decoding) we pass through `utf8Encode`. -/

/-- A JSON value (the serde_json `Value` shapes the schema wire format uses). -/
inductive Json where
  | str : String → Json
  | obj : List (String × Json) → Json
  | arr : List Json → Json
  | boolean : Bool → Json
  | null : Json
deriving Repr

/-- `serde_json::Map::get`: look a key up in an object's fields. -/
def paramsGet (params : List (String × Json)) (name : String) : Option Json :=
  (params.find? (fun p => p.1 == name)).map (fun p => p.2)

/-- `ParsedTool`: a tool decoded from either wire format. `params` models the
`serde_json::Map` field, `required` the compact-format `r` array. -/
structure ParsedTool where
  name : String
  description : Option String
  discriminator : String
  params : List (String × Json)
  required : List String
deriving Repr

/-- `ParsedSchema`: one decoded schema document (or page). -/
structure ParsedSchema where
  version : String
  name : String
  tools : List ParsedTool
  next_cursor : Option String
deriving Repr

/-- Outcome of the client's local `hex::decode`: success, a `Err(())`, or a
Rust panic (byte slicing `&s[i..i+2]` panics when an index is not a character
boundary of the UTF-8 string). -/
inductive HexOutcome where
  | panic : HexOutcome
  | err : HexOutcome
  | ok : List Nat → HexOutcome
deriving Repr, DecidableEq

/-- The value of an ASCII hex digit byte (`0-9`, `a-f`, `A-F`), if any. -/
def hexDigitVal (b : Nat) : Option Nat :=
  if 48 ≤ b ∧ b ≤ 57 then some (b - 48)
  else if 97 ≤ b ∧ b ≤ 102 then some (b - 87)
  else if 65 ≤ b ∧ b ≤ 70 then some (b - 55)
  else none

/-- Rust `u8::from_str_radix(chunk, 16)` on a two-byte chunk: `from_str_radix`
also accepts a leading plus sign before the digits. -/
def fromStrRadix16Chunk (chunk : List Nat) : Option Nat :=
  match chunk with
  | [b0, b1] =>
      if b0 = 43 then hexDigitVal b1
      else
        match hexDigitVal b0, hexDigitVal b1 with
        | some hi, some lo => some (hi * 16 + lo)
        | _, _ => none
  | _ => none

/-- Rust `str::is_char_boundary` over the UTF-8 bytes: index 0, the length, or
any index whose byte is not a continuation byte. -/
def isCharBoundary (bytes : List Nat) (i : Nat) : Bool :=
  i == 0 || i == bytes.length ||
    (decide (i < bytes.length) && (bytes.getD i 0) &&& 0xC0 != 0x80)

/-- The chunk loop of the client's `hex::decode`: chunks of two bytes, left to
right, short-circuiting on the first bad chunk; slicing a chunk whose ends are
not both character boundaries panics. The `Nat` fuel is a structural-recursion
bound (the byte length suffices as the index advances by two each step). -/
def hexDecodeGo (bytes : List Nat) : Nat → Nat → List Nat → HexOutcome
  | _, 0, acc => .ok acc.reverse
  | i, fuel + 1, acc =>
      if bytes.length ≤ i then .ok acc.reverse
      else if !(isCharBoundary bytes i && isCharBoundary bytes (i + 2)) then .panic
      else
        match fromStrRadix16Chunk ((bytes.drop i).take 2) with
        | some b => hexDecodeGo bytes (i + 2) fuel (b :: acc)
        | none => .err

/-- The client's local `hex::decode` over the UTF-8 bytes of the string:
odd byte length is an error, otherwise the string is consumed in two-byte
chunks through `u8::from_str_radix`. -/
def hexDecode (s : String) : HexOutcome :=
  let bytes := utf8Encode s
  if bytes.length % 2 ≠ 0 then .err
  else hexDecodeGo bytes 0 bytes.length []

/-- Outcome of `ParsedTool::discriminator_bytes`: the decoded 8 bytes, the
named `ParseSchema` error, or a panic propagated from `hex::decode`. -/
inductive DiscResult where
  | panic : DiscResult
  | parseSchemaError : DiscResult
  | ok : List Nat → DiscResult
deriving Repr, DecidableEq

/-- `ParsedTool::discriminator_bytes`. -/
def ParsedTool.discriminator_bytes (t : ParsedTool) : DiscResult :=
  match hexDecode t.discriminator with
  | .panic => .panic
  | .err => .parseSchemaError
  | .ok decoded =>
      if decoded.length < 8 then .parseSchemaError
      else .ok (decoded.take 8)

/-- Rust `str::ends_with` for string patterns. -/
def strEndsWith (s suf : String) : Bool := suf.data.isSuffixOf s.data

/-- `ParsedTool::is_account`: the raw value is the string "pubkey" or an
object whose "type" field is "pubkey". -/
def ParsedTool.is_account (t : ParsedTool) (name : String) : Bool :=
  match paramsGet t.params name with
  | some (Json.str s) => s == "pubkey"
  | some (Json.obj fields) =>
      match paramsGet fields "type" with
      | some (Json.str s) => s == "pubkey"
      | _ => false
  | _ => false

/-- `ParsedTool::is_signer`: a `_s`/`_sw` name suffix, otherwise the boolean
"signer" field of the nested object. -/
def ParsedTool.is_signer (t : ParsedTool) (name : String) : Bool :=
  if strEndsWith name "_s" || strEndsWith name "_sw" then true
  else
    match paramsGet t.params name with
    | some (Json.obj fields) =>
        match paramsGet fields "signer" with
        | some (Json.boolean b) => b
        | _ => false
    | _ => false

/-- `ParsedTool::is_writable`: a `_w`/`_sw` name suffix, otherwise the boolean
"writable" field of the nested object. -/
def ParsedTool.is_writable (t : ParsedTool) (name : String) : Bool :=
  if strEndsWith name "_w" || strEndsWith name "_sw" then true
  else
    match paramsGet t.params name with
    | some (Json.obj fields) =>
        match paramsGet fields "writable" with
        | some (Json.boolean b) => b
        | _ => false
    | _ => false

/-- `ParsedTool::get_param_type`: the raw string value, or the "type" field of
the nested object. -/
def ParsedTool.get_param_type (t : ParsedTool) (name : String) : Option String :=
  match paramsGet t.params name with
  | some (Json.str s) => some s
  | some (Json.obj fields) =>
      match paramsGet fields "type" with
      | some (Json.str s) => some s
      | _ => none
  | _ => none

/-- Remove the prefix `pat` from `r` repeatedly, with a structural fuel bound
(`r.length` suffices since each removal shortens the list). This is the
reversed-list view of Rust's greedy `str::trim_end_matches`. -/
def stripPrefRepGo : Nat → List Char → List Char → List Char
  | 0, _, r => r
  | fuel + 1, pat, r =>
      match pat with
      | [] => r
      | p :: ps =>
          if (p :: ps).isPrefixOf r then
            stripPrefRepGo fuel (p :: ps) (r.drop (p :: ps).length)
          else r

/-- Repeatedly remove the prefix `pat` from `r`. -/
def stripPrefRep (pat r : List Char) : List Char :=
  stripPrefRepGo r.length pat r

/-- Rust `str::trim_end_matches`: repeatedly remove the trailing `pat`. -/
def trimEndMatches (s pat : String) : String :=
  String.mk (stripPrefRep pat.data.reverse s.data.reverse).reverse

/-- `ParsedTool::base_name`: strip `_sw`, then `_s`, then `_w`. -/
def base_name (name : String) : String :=
  trimEndMatches (trimEndMatches (trimEndMatches name "_sw") "_s") "_w"

/-- `ParsedTool::required_params`: the compact `required` array when present,
otherwise every parameter key. -/
def ParsedTool.required_params (t : ParsedTool) : List String :=
  if t.required.isEmpty then t.params.map (fun p => p.1) else t.required

/-! ## `src/client/src/lib.rs` — `build_instruction`

Solana `Pubkey` values held by the caller are modelled as opaque natural
numbers (addresses); the textual base58 form only matters for pubkey-typed
arguments, where the 32 decoded bytes enter the payload. -/

/-- A Solana `AccountMeta`. -/
structure AccountMeta where
  pubkey : Nat
  is_signer : Bool
  is_writable : Bool
deriving Repr, DecidableEq

/-- A Solana `Instruction`. -/
structure Instruction where
  program_id : Nat
  accounts : List AccountMeta
  data : List Nat
deriving Repr, DecidableEq

/-- `McpClientError`, with an extra constructor recording a Rust panic
(the hex slicing inside `discriminator_bytes` can panic). -/
inductive McpClientError where
  | parseSchema : String → McpClientError
  | toolNotFound : String → McpClientError
  | missingParam : String → McpClientError
  | invalidPubkey : String → McpClientError
  | invalidArg : String → McpClientError
  | panic : McpClientError
deriving Repr, DecidableEq

/-- Decimal digits of a Rust integer literal body; `none` when empty or any
character is not an ASCII digit. -/
def parseDigits : List Char → Option Nat
  | [] => none
  | cs => go cs 0
where
  go : List Char → Nat → Option Nat
    | [], acc => some acc
    | c :: cs, acc =>
        if 48 ≤ c.toNat ∧ c.toNat ≤ 57 then go cs (acc * 10 + (c.toNat - 48))
        else none

/-- Rust `str::parse::<uN>`: optional leading plus, decimal digits, range
checked against `2^bits`. -/
def rustParseUnsigned (bits : Nat) (s : String) : Option Nat :=
  let cs := match s.data with
    | '+' :: rest => rest
    | cs => cs
  match parseDigits cs with
  | some v => if v < 2 ^ bits then some v else none
  | none => none

/-- Rust `str::parse::<iN>`: optional sign, decimal digits, range checked
against the signed range of `bits` bits. -/
def rustParseSigned (bits : Nat) (s : String) : Option Int :=
  match s.data with
  | '-' :: rest =>
      match parseDigits rest with
      | some v => if (v : Int) ≤ 2 ^ (bits - 1) then some (-(v : Int)) else none
      | none => none
  | '+' :: rest =>
      match parseDigits rest with
      | some v => if v < 2 ^ (bits - 1) then some (v : Int) else none
      | none => none
  | cs =>
      match parseDigits cs with
      | some v => if v < 2 ^ (bits - 1) then some (v : Int) else none
      | none => none

/-- Little-endian fixed-width byte encoding of a natural number
(`to_le_bytes` on the unsigned types, and the `as u32` length casts). -/
def leBytes (v : Nat) (w : Nat) : List Nat :=
  (List.range w).map (fun i => (v >>> (8 * i)) % 256)

/-- Little-endian fixed-width byte encoding of a signed value
(two's complement, `to_le_bytes` on the signed types). -/
def intLeBytes (v : Int) (w : Nat) : List Nat :=
  leBytes (v % ((2 : Int) ^ (8 * w))).toNat w

/-- The base58 alphabet used by Solana addresses. -/
def base58Alphabet : List Char :=
  "123456789ABCDEFGHJKLMNPQRSTUVWXYZabcdefghijkmnopqrstuvwxyz".data

/-- The value of one base58 digit, if the character is in the alphabet. -/
def base58Digit (c : Char) : Option Nat :=
  base58Alphabet.indexOf? c

/-- Big-endian minimal byte representation of a natural number, with a
structural fuel bound (48 covers any 32-byte address). -/
def natBEGo : Nat → Nat → List Nat
  | 0, _ => []
  | fuel + 1, n => if n = 0 then [] else natBEGo fuel (n / 256) ++ [n % 256]

/-- `Pubkey::from_str` (external `solana_sdk`): base58 decode — leading `1`s
become zero bytes — succeeding only when exactly 32 bytes result. -/
def pubkeyFromStr (s : String) : Option (List Nat) :=
  match s.data.mapM base58Digit with
  | none => none
  | some digits =>
      let zeros := (s.data.takeWhile (fun c => c = '1')).length
      let v := digits.foldl (fun acc d => acc * 58 + d) 0
      let bytes := List.replicate zeros 0 ++ natBEGo 48 v
      if bytes.length = 32 then some bytes else none

/-- The value of one standard-base64 digit, if any. -/
def base64Digit (c : Char) : Option Nat :=
  let n := c.toNat
  if 65 ≤ n ∧ n ≤ 90 then some (n - 65)
  else if 97 ≤ n ∧ n ≤ 122 then some (n - 71)
  else if 48 ≤ n ∧ n ≤ 57 then some (n + 4)
  else if c = '+' then some 62
  else if c = '/' then some 63
  else none

/-- Standard base64 decoding (the `base64` crate's STANDARD engine): complete
four-character groups, with `=` padding only at the end. -/
def base64Decode (s : String) : Option (List Nat) :=
  go s.data
where
  go : List Char → Option (List Nat)
    | [] => some []
    | c0 :: c1 :: c2 :: c3 :: rest =>
        match base64Digit c0, base64Digit c1 with
        | some d0, some d1 =>
            if c2 = '=' ∧ c3 = '=' ∧ rest = [] then
              if (d1 % 16) = 0 then some [d0 * 4 + d1 / 16] else none
            else
              match base64Digit c2 with
              | some d2 =>
                  if c3 = '=' ∧ rest = [] then
                    if (d2 % 4) = 0 then
                      some [d0 * 4 + d1 / 16, (d1 % 16) * 16 + d2 / 4]
                    else none
                  else
                    match base64Digit c3 with
                    | some d3 =>
                        (go rest).map (fun tl =>
                          (d0 * 4 + d1 / 16) :: ((d1 % 16) * 16 + d2 / 4) ::
                          ((d2 % 4) * 64 + d3) :: tl)
                    | none => none
              | none => none
        | _, _ => none
    | _ => none

/-- One argument's serialization in `build_instruction`, keyed by the declared
type string; unknown types fall back to the length-prefixed string encoding.
Note the match in the source has no `"i128"` arm. -/
def encodeArg (arg_type : String) (req : String) (value : String) :
    Except McpClientError (List Nat) :=
  match arg_type with
  | "int" =>
      match rustParseUnsigned 64 value with
      | some v => .ok (leBytes v 8)
      | none => .error (.invalidArg req)
  | "u8" =>
      match rustParseUnsigned 8 value with
      | some v => .ok (leBytes v 1)
      | none => .error (.invalidArg req)
  | "u16" =>
      match rustParseUnsigned 16 value with
      | some v => .ok (leBytes v 2)
      | none => .error (.invalidArg req)
  | "u32" =>
      match rustParseUnsigned 32 value with
      | some v => .ok (leBytes v 4)
      | none => .error (.invalidArg req)
  | "u64" =>
      match rustParseUnsigned 64 value with
      | some v => .ok (leBytes v 8)
      | none => .error (.invalidArg req)
  | "u128" =>
      match rustParseUnsigned 128 value with
      | some v => .ok (leBytes v 16)
      | none => .error (.invalidArg req)
  | "i8" =>
      match rustParseSigned 8 value with
      | some v => .ok (intLeBytes v 1)
      | none => .error (.invalidArg req)
  | "i16" =>
      match rustParseSigned 16 value with
      | some v => .ok (intLeBytes v 2)
      | none => .error (.invalidArg req)
  | "i32" =>
      match rustParseSigned 32 value with
      | some v => .ok (intLeBytes v 4)
      | none => .error (.invalidArg req)
  | "i64" =>
      match rustParseSigned 64 value with
      | some v => .ok (intLeBytes v 8)
      | none => .error (.invalidArg req)
  | "bool" =>
      match value with
      | "true" => .ok [1]
      | "false" => .ok [0]
      | _ => .error (.invalidArg req)
  | "pubkey" =>
      match pubkeyFromStr value with
      | some bs => .ok bs
      | none => .error (.invalidPubkey req)
  | "str" => .ok (leBytes (utf8Encode value).length 4 ++ utf8Encode value)
  | "bytes" =>
      match base64Decode value with
      | some bs => .ok (leBytes bs.length 4 ++ bs)
      | none => .error (.invalidArg req)
  | _ => .ok (leBytes (utf8Encode value).length 4 ++ utf8Encode value)

/-- The caller-account lookup: exact key or `base_name`, first match wins. -/
def findAccount (accounts : List (String × Nat)) (base req : String) : Option Nat :=
  (accounts.find? (fun p => p.1 == base || p.1 == req)).map (fun p => p.2)

/-- The account pass of `build_instruction`: for each required parameter that
is an account, resolve the caller address and record signer/writable flags. -/
def buildAccountMetas (tool : ParsedTool) (accounts : List (String × Nat)) :
    List String → Except McpClientError (List AccountMeta)
  | [] => .ok []
  | req :: rest =>
      if tool.is_account req then
        match findAccount accounts (base_name req) req with
        | none => .error (.missingParam req)
        | some pk =>
            (buildAccountMetas tool accounts rest).map
              (fun ms => ⟨pk, tool.is_signer req, tool.is_writable req⟩ :: ms)
      else buildAccountMetas tool accounts rest

/-- The caller-argument lookup by exact name. -/
def findArgValue (args : List (String × String)) (req : String) : Option String :=
  (args.find? (fun p => p.1 == req)).map (fun p => p.2)

/-- The argument pass of `build_instruction`: for each required non-account
parameter, look the value up and serialize it per declared type. -/
def buildArgData (tool : ParsedTool) (args : List (String × String)) :
    List String → Except McpClientError (List Nat)
  | [] => .ok []
  | req :: rest =>
      if tool.is_account req then buildArgData tool args rest
      else
        let arg_type := (tool.get_param_type req).getD "str"
        match findArgValue args req with
        | none => .error (.missingParam req)
        | some value =>
            match encodeArg arg_type req value with
            | .error e => .error e
            | .ok bs =>
                match buildArgData tool args rest with
                | .error e => .error e
                | .ok tl => .ok (bs ++ tl)

/-- `McpClient::build_instruction`. -/
def build_instruction (program_id : Nat) (tool_name : String)
    (accounts : List (String × Nat)) (args : List (String × String))
    (schema : ParsedSchema) : Except McpClientError Instruction :=
  match schema.tools.find? (fun t => t.name == tool_name) with
  | none => .error (.toolNotFound tool_name)
  | some tool =>
      let required := tool.required_params
      match buildAccountMetas tool accounts required with
      | .error e => .error e
      | .ok metas =>
          match tool.discriminator_bytes with
          | .panic => .error .panic
          | .parseSchemaError => .error (.parseSchema tool.discriminator)
          | .ok disc =>
              match buildArgData tool args required with
              | .error e => .error e
              | .ok argBytes => .ok ⟨program_id, metas, disc ++ argBytes⟩

/-! ## `src/client/src/lib.rs` — `list_tools_full`

The page-fetch RPC (`list_tools_page`) is the external collaborator; the
aggregator is modelled over an arbitrary fetch function. The loop returns the
aggregated schema together with the number of loop fetches performed. -/

/-- The `while` loop of `list_tools_full`; the fuel is a structural-recursion
bound only (the loop's own 100-cursor cap breaks long before fuel 150 runs
out). The cursor is a `u8` advanced with `saturating_add`. -/
def listToolsFullGo (fetch : Nat → Except String ParsedSchema) :
    Nat → ParsedSchema → Nat → (Except String ParsedSchema × Nat)
  | 0, schema, _ => (.ok schema, 0)
  | fuel + 1, schema, cursor =>
      match schema.next_cursor with
      | none => (.ok schema, 0)
      | some _ =>
          match fetch cursor with
          | .error e => (.error e, 1)
          | .ok next =>
              let schema' : ParsedSchema :=
                { schema with
                    tools := schema.tools ++ next.tools,
                    next_cursor := next.next_cursor }
              let cursor' := min (cursor + 1) 255
              if 100 < cursor' then (.ok schema', 1)
              else
                let r := listToolsFullGo fetch fuel schema' cursor'
                (r.1, r.2 + 1)

/-- `McpClient::list_tools_full`: fetch page 0, then follow `nextCursor`. -/
def list_tools_full (fetch : Nat → Except String ParsedSchema) :
    Except String ParsedSchema :=
  match fetch 0 with
  | .error e => .error e
  | .ok schema => (listToolsFullGo fetch 150 schema 1).1

/-- The total number of page fetches `list_tools_full` performs (the initial
page-0 fetch plus the loop fetches). -/
def listToolsFullFetches (fetch : Nat → Except String ParsedSchema) : Nat :=
  match fetch 0 with
  | .error _ => 1
  | .ok schema => 1 + (listToolsFullGo fetch 150 schema 1).2

/-! ## Helper lemmas on prefix stripping (for `base_name`) -/

theorem isPrefixOf_append_self (l r : List Char) : l.isPrefixOf (l ++ r) = true := by
  induction l with
  | nil => simp [List.isPrefixOf]
  | cons a as ih => simp [List.isPrefixOf, ih]

theorem stripPrefRepGo_no_pre (fuel : Nat) (pat r : List Char)
    (h : pat.isPrefixOf r = false) : stripPrefRepGo fuel pat r = r := by
  cases fuel with
  | zero => rfl
  | succ f =>
      cases pat with
      | nil => simp [List.isPrefixOf] at h
      | cons p ps => simp [stripPrefRepGo, h]

theorem stripPrefRepGo_append (fuel : Nat) (pat r : List Char) (hp : pat ≠ []) :
    stripPrefRepGo (fuel + 1) pat (pat ++ r) = stripPrefRepGo fuel pat r := by
  obtain ⟨p, ps, rfl⟩ := List.exists_cons_of_ne_nil hp
  have hpre := isPrefixOf_append_self (p :: ps) r
  have hdrop : ((p :: ps) ++ r).drop (p :: ps).length = r := List.drop_left _ _
  simp only [stripPrefRepGo, hpre, if_true, hdrop]

theorem strEndsWith_as_pre (s pat : String) :
    strEndsWith s pat = pat.data.reverse.isPrefixOf s.data.reverse := rfl

theorem trimEnd_of_not_ends (s pat : String) (h : strEndsWith s pat = false) :
    trimEndMatches s pat = s := by
  unfold trimEndMatches stripPrefRep
  rw [strEndsWith_as_pre] at h
  rw [stripPrefRepGo_no_pre _ _ _ h]
  simp

theorem trimEnd_append (base pat : String) (hp : pat.data ≠ [])
    (h : strEndsWith base pat = false) :
    trimEndMatches (base ++ pat) pat = base := by
  unfold trimEndMatches stripPrefRep
  rw [strEndsWith_as_pre] at h
  have hdata : (base ++ pat).data.reverse = pat.data.reverse ++ base.data.reverse := by
    simp [String.data_append]
  have hne : pat.data.reverse ≠ [] := by
    simpa using hp
  have hlen : (pat.data.reverse ++ base.data.reverse).length =
      (pat.data.reverse ++ base.data.reverse).length - 1 + 1 := by
    rcases List.exists_cons_of_ne_nil hne with ⟨a, as, ha⟩
    simp [ha]
  rw [hdata, hlen, stripPrefRepGo_append _ _ _ hne, stripPrefRepGo_no_pre _ _ _ h]
  simp

/-! ## Claim theorems -/

/-- **C1.** For every name, `instruction_discriminator` is the pure function
taking the first 8 bytes of SHA-256 of `"global:" ++ name`; in particular at
`"list_tools"` it equals the exported `LIST_TOOLS_DISCRIMINATOR` constant,
whose bytes are 42 19 5e 6a 55 fd 41 c0. -/
theorem C1_instruction_discriminator_sha256 :
    (∀ name : String,
      instruction_discriminator name =
        (sha256 (utf8Encode ("global:" ++ name))).take 8) ∧
    instruction_discriminator "list_tools" = LIST_TOOLS_DISCRIMINATOR ∧
    LIST_TOOLS_DISCRIMINATOR = [0x42, 0x19, 0x5e, 0x6a, 0x55, 0xfd, 0x41, 0xc0] :=
  ⟨fun _ => rfl, by decide, rfl⟩

/-- **C10.** `is_signer` and `is_writable` decide by the queried name's suffix
alone, before consulting the parameter map: any name ending in `_s` or `_sw`
is reported a signer, and any name ending in `_w` or `_sw` writable, for every
tool — whether or not the name is a key of the map, and regardless of the
boolean fields of a nested object. -/
theorem C10_suffix_decides_before_map :
    ∀ (t : ParsedTool) (name : String),
      ((strEndsWith name "_s" = true ∨ strEndsWith name "_sw" = true) →
        t.is_signer name = true) ∧
      ((strEndsWith name "_w" = true ∨ strEndsWith name "_sw" = true) →
        t.is_writable name = true) := by
  intro t name
  constructor
  · intro h
    rcases h with h | h <;> simp [ParsedTool.is_signer, h]
  · intro h
    rcases h with h | h <;> simp [ParsedTool.is_writable, h]

/-- A parsed tool whose parameter `a_sw` is declared `signer:false` and
`writable:false` in the verbose nested object — the suffix still wins. -/
def c10Tool : ParsedTool :=
  ⟨"t", none, "0000000000000000",
   [("a_sw", Json.obj [("type", Json.str "pubkey"), ("signer", Json.boolean false),
                       ("writable", Json.boolean false)])],
   []⟩

/-- Witness for C10: at the concrete name `"a_sw"` (whose nested object says
`signer:false, writable:false`) both accessors still answer `true`. -/
theorem C10_witness :
    ((strEndsWith "a_sw" "_s" = true ∨ strEndsWith "a_sw" "_sw" = true) ∧
     (strEndsWith "a_sw" "_w" = true ∨ strEndsWith "a_sw" "_sw" = true)) ∧
    (c10Tool.is_signer "a_sw" = true ∧ c10Tool.is_writable "a_sw" = true) :=
  ⟨⟨Or.inr (by decide), Or.inr (by decide)⟩,
   (C10_suffix_decides_before_map c10Tool "a_sw").1 (Or.inr (by decide)),
   (C10_suffix_decides_before_map c10Tool "a_sw").2 (Or.inr (by decide))⟩

/-- The concrete tool for C4: one required argument of declared type `i128`. -/
def c4Tool : ParsedTool := ⟨"t", none, "0000000000000000", [("x", Json.str "i128")], ["x"]⟩

/-- The concrete one-tool schema for C4. -/
def c4Schema : ParsedSchema := ⟨"2024-11-05", "p", [c4Tool], none⟩

set_option maxRecDepth 8192 in
/-- **C4.** The serialization match in `build_instruction` has no `"i128"` arm,
so a required `i128` argument whose value parses as `i128` (here `"1"`) is
encoded by the unknown-type fallback — 4-byte length prefix plus the raw text
byte `0x31` — instead of the claimed 16-byte little-endian integer. -/
theorem C4_i128_falls_to_string_fallback :
    build_instruction 0 "t" [] [("x", "1")] c4Schema =
      Except.ok (Instruction.mk 0 [] [0, 0, 0, 0, 0, 0, 0, 0, 1, 0, 0, 0, 49]) ∧
    encodeArg "i128" "x" "1" = Except.ok [1, 0, 0, 0, 49] ∧
    intLeBytes 1 16 = [1, 0, 0, 0, 0, 0, 0, 0, 0, 0, 0, 0, 0, 0, 0, 0] ∧
    ([1, 0, 0, 0, 49] : List Nat) ≠ intLeBytes 1 16 :=
  ⟨rfl, rfl, by decide, by decide⟩

/-- **C7.** The account suffix table maps (signer, writable) to
`"" / _s / _w / _sw`; `base_name` strips `_sw` before `_s` and `_w`, so
`base_name "from_sw" = "from"`, a lookalike such as `"status"` is unchanged,
and for every base name not itself ending in a suffix,
`base_name (base ++ suffix) = base`. -/
theorem C7_suffix_roundtrip :
    ((∀ (n : String) (d : Option String),
        (McpAccountMeta.mk n d true true).suffix = "_sw" ∧
        (McpAccountMeta.mk n d true false).suffix = "_s" ∧
        (McpAccountMeta.mk n d false true).suffix = "_w" ∧
        (McpAccountMeta.mk n d false false).suffix = "") ∧
      base_name "from_sw" = "from" ∧
      base_name "status" = "status") ∧
    (∀ (base : String) (m : McpAccountMeta),
      strEndsWith base "_s" = false → strEndsWith base "_w" = false →
      strEndsWith base "_sw" = false →
      base_name (base ++ m.suffix) = base) := by
  refine ⟨⟨fun n d => ⟨rfl, rfl, rfl, rfl⟩, by decide, by decide⟩, ?_⟩
  intro base m hs hw hsw
  rcases m with ⟨n, d, sg, wr⟩
  have hrevs : ∀ t : String, (base ++ t).data.reverse = t.data.reverse ++ base.data.reverse := by
    intro t; simp [String.data_append]
  cases sg <;> cases wr <;>
    simp only [McpAccountMeta.suffix] <;>
    unfold base_name
  -- (false, false): suffix ""
  case false.false =>
    have h0 : base ++ "" = base := by simp
    rw [h0, trimEnd_of_not_ends _ _ hsw, trimEnd_of_not_ends _ _ hs,
       trimEnd_of_not_ends _ _ hw]
  -- (false, true): suffix "_w"
  case false.true =>
    have h1 : strEndsWith (base ++ "_w") "_sw" = false := by
      rw [strEndsWith_as_pre, hrevs]
      simp [List.isPrefixOf]
    have h2 : strEndsWith (base ++ "_w") "_s" = false := by
      rw [strEndsWith_as_pre, hrevs]
      simp [List.isPrefixOf]
    rw [trimEnd_of_not_ends _ _ h1, trimEnd_of_not_ends _ _ h2,
       trimEnd_append _ _ (by decide) hw]
  -- (true, false): suffix "_s"
  case true.false =>
    have h1 : strEndsWith (base ++ "_s") "_sw" = false := by
      rw [strEndsWith_as_pre, hrevs]
      simp [List.isPrefixOf]
    rw [trimEnd_of_not_ends _ _ h1, trimEnd_append _ _ (by decide) hs,
       trimEnd_of_not_ends _ _ hw]
  -- (true, true): suffix "_sw"
  case true.true =>
    rw [trimEnd_append _ _ (by decide) hsw, trimEnd_of_not_ends _ _ hs,
       trimEnd_of_not_ends _ _ hw]

/-- Witness for C7: base `"from"` with a signer+writable account meta. -/
theorem C7_witness :
    strEndsWith "from" "_s" = false ∧ strEndsWith "from" "_w" = false ∧
    strEndsWith "from" "_sw" = false ∧
    base_name ("from" ++ (McpAccountMeta.mk "x" none true true).suffix) = "from" :=
  ⟨by decide, by decide, by decide,
   C7_suffix_roundtrip.2 "from" (McpAccountMeta.mk "x" none true true)
     (by decide) (by decide) (by decide)⟩

/-! ## C2: the page cache against the paginated encoder -/

/-- A builder-built one-tool schema used by the C2 theorems. -/
def c2Schema : McpSchema := ⟨"p", [buildTool "t" none [] []]⟩

/-- **C2 (counterexample).** At the out-of-range cursor 1 of a one-tool schema
the cache returns the empty buffer while the paginated encoder returns a
non-empty `tools:[]` page, so the two are not byte-identical there. -/
theorem C2_out_of_range_differs :
    (CachedSchemaPages.from_schema c2Schema).get_page 1 = ([] : List Nat) ∧
    generate_paginated_schema_bytes c2Schema 1 ≠ ([] : List Nat) := by
  constructor
  · decide
  · decide

/-- **C2 (amended).** For every schema and every u8 cursor, the cached page is
byte-identical to the paginated encoder's output whenever the cursor is
in range (below `max tool_count 1`), and the cache returns an empty buffer —
unlike the encoder — when the cursor is out of range. -/
theorem C2_cache_matches_encoder_in_range :
    ∀ (schema : McpSchema) (cursor : Nat), cursor < 256 →
      (cursor < max schema.tools.length 1 →
        (CachedSchemaPages.from_schema schema).get_page cursor =
          generate_paginated_schema_bytes schema cursor) ∧
      (max schema.tools.length 1 ≤ cursor →
        (CachedSchemaPages.from_schema schema).get_page cursor = []) := by
  intro schema cursor h256
  unfold CachedSchemaPages.get_page CachedSchemaPages.from_schema
  constructor
  · intro hin
    rw [List.getD_eq_getElem?_getD, List.getElem?_map, List.getElem?_range hin]
    simp [Nat.mod_eq_of_lt h256]
  · intro hout
    rw [List.getD_eq_getElem?_getD, List.getElem?_eq_none]
    · rfl
    · simpa using hout

/-- Witness for C2: the in-range cursor 0 of the one-tool schema. -/
theorem C2_witness :
    (0 : Nat) < 256 ∧ 0 < max c2Schema.tools.length 1 ∧
    (CachedSchemaPages.from_schema c2Schema).get_page 0 =
      generate_paginated_schema_bytes c2Schema 0 :=
  ⟨by decide, by decide,
   (C2_cache_matches_encoder_in_range c2Schema 0 (by decide)).1 (by decide)⟩

/-! ## C5: the worked build-instruction example -/

/-- The decoded tool of the C5 example, with required order
`[counter_w, authority_s, amount:u64]`; the discriminator hex is arbitrary. -/
def c5Tool (dhex : String) : ParsedTool :=
  ⟨"increment", none, dhex,
   [("counter_w", Json.str "pubkey"), ("authority_s", Json.str "pubkey"),
    ("amount", Json.str "u64")],
   ["counter_w", "authority_s", "amount"]⟩

/-- The one-tool schema of the C5 example. -/
def c5Schema (dhex : String) : ParsedSchema :=
  ⟨"2024-11-05", "counter", [c5Tool dhex], none⟩

set_option maxRecDepth 8192 in
/-- **C5.** Building `increment` with caller accounts `counter = C`,
`authority = A` and argument `amount = "100"` yields data equal to the tool's
8-byte discriminator followed by `100u64` little-endian, and the account list
`[(C, signer=false, writable=true), (A, signer=true, writable=false)]`. -/
theorem C5_build_call_example :
    ∀ (pid C A : Nat) (dhex : String) (d : List Nat),
      (c5Tool dhex).discriminator_bytes = DiscResult.ok d →
      build_instruction pid "increment" [("counter", C), ("authority", A)]
        [("amount", "100")] (c5Schema dhex) =
      Except.ok (Instruction.mk pid
        [AccountMeta.mk C false true, AccountMeta.mk A true false]
        (d ++ [100, 0, 0, 0, 0, 0, 0, 0])) := by
  intro pid C A dhex d h
  have hstep : build_instruction pid "increment" [("counter", C), ("authority", A)]
      [("amount", "100")] (c5Schema dhex) =
      (match (c5Tool dhex).discriminator_bytes with
       | DiscResult.panic => Except.error McpClientError.panic
       | DiscResult.parseSchemaError =>
           Except.error (McpClientError.parseSchema (c5Tool dhex).discriminator)
       | DiscResult.ok disc =>
           Except.ok (Instruction.mk pid
             [AccountMeta.mk C false true, AccountMeta.mk A true false]
             (disc ++ [100, 0, 0, 0, 0, 0, 0, 0]))) := rfl
  rw [hstep, h]

/-- Witness for C5: the concrete discriminator hex `0b12680968ae3b21`
(sha256("global:increment")[0..8]) and addresses C = 1, A = 2. -/
theorem C5_witness :
    (c5Tool "0b12680968ae3b21").discriminator_bytes =
      DiscResult.ok [0x0b, 0x12, 0x68, 0x09, 0x68, 0xae, 0x3b, 0x21] ∧
    build_instruction 0 "increment" [("counter", 1), ("authority", 2)]
      [("amount", "100")] (c5Schema "0b12680968ae3b21") =
    Except.ok (Instruction.mk 0
      [AccountMeta.mk 1 false true, AccountMeta.mk 2 true false]
      ([0x0b, 0x12, 0x68, 0x09, 0x68, 0xae, 0x3b, 0x21] ++
       [100, 0, 0, 0, 0, 0, 0, 0])) :=
  ⟨by decide,
   C5_build_call_example 0 1 2 "0b12680968ae3b21"
     [0x0b, 0x12, 0x68, 0x09, 0x68, 0xae, 0x3b, 0x21] (by decide)⟩

/-! ## C8: `discriminator_bytes` -/

/-- The claim's chunk-wise notion of hex decoding, defined directly on the
character list: every two-character chunk must parse as a radix-16 `u8`
(via `from_str_radix`, which also accepts a leading plus). -/
def specHexValue? : List Char → Option (List Nat)
  | [] => some []
  | c0 :: c1 :: rest =>
      (match fromStrRadix16Chunk [c0.toNat, c1.toNat], specHexValue? rest with
       | some b, some bs => some (b :: bs)
       | _, _ => none)
  | _ => none

/-- ASCII strings UTF-8 encode byte-for-byte to their code points. -/
theorem ascii_flatMap_utf8 :
    ∀ (cs : List Char), (∀ c ∈ cs, c.toNat < 128) →
      cs.flatMap utf8EncodeChar = cs.map Char.toNat := by
  intro cs h
  induction cs with
  | nil => rfl
  | cons c cs ih =>
      have hc : c.toNat < 128 := h c (by simp)
      have : utf8EncodeChar c = [c.toNat] := by
        unfold utf8EncodeChar
        have : c.toNat < 0x80 := hc
        simp [this]
      simp [this, ih (fun x hx => h x (by simp [hx]))]

/-- In an all-ASCII byte string every position is a character boundary. -/
theorem ascii_isCharBoundary (bytes : List Nat) (hb : ∀ b ∈ bytes, b < 128)
    (i : Nat) (hi : i ≤ bytes.length) : isCharBoundary bytes i = true := by
  unfold isCharBoundary
  rcases Nat.lt_or_ge i bytes.length with h | h
  · have hgd : bytes.getD i 0 = bytes.get ⟨i, h⟩ := by
      rw [List.getD_eq_getElem?_getD, List.getElem?_eq_getElem h]
      rfl
    have hlt : bytes.get ⟨i, h⟩ < 128 := hb _ (List.get_mem _ _ _)
    have hand : bytes.get ⟨i, h⟩ &&& 0xC0 ≤ bytes.get ⟨i, h⟩ := Nat.and_le_left
    simp only [Bool.or_eq_true, beq_iff_eq, Bool.and_eq_true, decide_eq_true_eq,
      bne_iff_ne, ne_eq]
    right
    refine ⟨h, ?_⟩
    rw [hgd]
    omega
  · have : i = bytes.length := by omega
    simp [this]

/-- The hex chunk loop agrees with the chunk-wise specification on all-ASCII
input of even length. -/
theorem hexDecodeGo_ascii (bytes : List Nat) (hb : ∀ b ∈ bytes, b < 128) :
    ∀ (cs : List Char) (i fuel : Nat) (acc : List Nat),
      bytes.drop i = cs.map Char.toNat →
      bytes.length = i + cs.length →
      cs.length % 2 = 0 →
      cs.length ≤ fuel →
      hexDecodeGo bytes i fuel acc =
        (match specHexValue? cs with
         | some bs => HexOutcome.ok (acc.reverse ++ bs)
         | none => HexOutcome.err)
  | [], i, fuel, acc, hdrop, hlen, _, _ => by
      have hge : bytes.length ≤ i := by
        simp at hlen
        omega
      cases fuel with
      | zero => simp [hexDecodeGo, specHexValue?]
      | succ f =>
          unfold hexDecodeGo
          simp [hge, specHexValue?]
  | [c], i, fuel, acc, hdrop, hlen, hpar, _ => by
      simp at hpar
  | c0 :: c1 :: rest, i, fuel, acc, hdrop, hlen, hpar, hfuel => by
      have hlen2 : (c0 :: c1 :: rest).length = rest.length + 2 := by simp
      cases fuel with
      | zero => omega
      | succ f =>
          have hlt : i < bytes.length := by simp at hlen; omega
          have hb1 : isCharBoundary bytes i = true :=
            ascii_isCharBoundary bytes hb i (by omega)
          have hb2 : isCharBoundary bytes (i + 2) = true :=
            ascii_isCharBoundary bytes hb (i + 2) (by simp at hlen; omega)
          have hchunk : (bytes.drop i).take 2 = [c0.toNat, c1.toNat] := by
            rw [hdrop]; rfl
          have hdrop2 : bytes.drop (i + 2) = rest.map Char.toNat := by
            have : bytes.drop (i + 2) = (bytes.drop i).drop 2 := by
              rw [List.drop_drop]
            rw [this, hdrop]; rfl
          have hnotle : ¬ bytes.length ≤ i := by omega
          unfold hexDecodeGo
          simp only [hnotle, if_false, hb1, hb2, Bool.and_self, Bool.not_true,
            Bool.false_eq_true, if_neg, hchunk, ite_false]
          cases hfr : fromStrRadix16Chunk [c0.toNat, c1.toNat] with
          | none => simp [specHexValue?, hfr]
          | some b =>
              have ih := hexDecodeGo_ascii bytes hb rest (i + 2) f (b :: acc)
                hdrop2 (by simp at hlen ⊢; omega) (by simp at hpar ⊢; omega)
                (by omega)
              simp only [ih]
              cases hrest : specHexValue? rest with
              | none => simp [specHexValue?, hfr, hrest]
              | some bs => simp [specHexValue?, hfr, hrest]

/-- `specHexValue?` rejects odd-length input. -/
theorem specHexValue?_odd :
    ∀ (cs : List Char), cs.length % 2 = 1 → specHexValue? cs = none
  | [], h => by simp at h
  | [c], _ => rfl
  | c0 :: c1 :: rest, h => by
      have := specHexValue?_odd rest (by simp at h ⊢; omega)
      simp [specHexValue?, this]

/-- **C8 (amended).** On ASCII discriminator strings `discriminator_bytes`
never panics: it returns Ok with the first 8 decoded bytes when every
two-character chunk radix-16-parses and at least 8 bytes result, and the named
ParseSchema error otherwise (odd length, a bad chunk, or fewer than 8 bytes).
On non-ASCII strings the byte slicing can panic (see the counterexample). -/
theorem C8_discriminator_bytes_ascii :
    ∀ (t : ParsedTool), (∀ c ∈ t.discriminator.data, c.toNat < 128) →
      t.discriminator_bytes =
        (match specHexValue? t.discriminator.data with
         | some bs =>
             if bs.length < 8 then DiscResult.parseSchemaError
             else DiscResult.ok (bs.take 8)
         | none => DiscResult.parseSchemaError) := by
  intro t h
  have hbytes : utf8Encode t.discriminator = t.discriminator.data.map Char.toNat :=
    ascii_flatMap_utf8 _ h
  have hlen : (utf8Encode t.discriminator).length = t.discriminator.data.length := by
    rw [hbytes]; simp
  have hb : ∀ b ∈ utf8Encode t.discriminator, b < 128 := by
    intro b hbmem
    rw [hbytes] at hbmem
    obtain ⟨c, hc, rfl⟩ := List.mem_map.mp hbmem
    exact h c hc
  rcases Nat.even_or_odd t.discriminator.data.length with he | ho
  · have hpar : t.discriminator.data.length % 2 = 0 := Nat.even_iff.mp he
    have hgo := hexDecodeGo_ascii (utf8Encode t.discriminator) hb
      t.discriminator.data 0 (utf8Encode t.discriminator).length []
      (by simpa using hbytes) (by omega) hpar (by omega)
    have hcond : ¬ ((utf8Encode t.discriminator).length % 2 ≠ 0) := by omega
    have hdec : hexDecode t.discriminator =
        (match specHexValue? t.discriminator.data with
         | some bs => HexOutcome.ok bs
         | none => HexOutcome.err) := by
      simp only [hexDecode]
      rw [if_neg hcond, hgo]
      cases hs : specHexValue? t.discriminator.data <;> simp
    unfold ParsedTool.discriminator_bytes
    rw [hdec]
    cases hs : specHexValue? t.discriminator.data <;> simp
  · have hpar : t.discriminator.data.length % 2 = 1 := Nat.odd_iff.mp ho
    have hcond : (utf8Encode t.discriminator).length % 2 ≠ 0 := by omega
    have hdec : hexDecode t.discriminator = HexOutcome.err := by
      simp only [hexDecode]
      rw [if_pos hcond]
    unfold ParsedTool.discriminator_bytes
    rw [hdec, specHexValue?_odd _ hpar]

/-- A parsed tool whose discriminator string contains a multi-byte character
with an ASCII byte on each side, so the 2-byte chunking cuts the character. -/
def c8Tool : ParsedTool := ⟨"t", none, "aéb", [], []⟩

/-- **C8 (counterexample).** On the 4-UTF-8-byte discriminator `"aéb"` the
slice `&s[2..4]` starts inside the two-byte `é`, so `discriminator_bytes`
panics instead of returning the named ParseSchema error. -/
theorem C8_panics_on_non_ascii :
    c8Tool.discriminator_bytes = DiscResult.panic ∧
    DiscResult.panic ≠ DiscResult.parseSchemaError ∧
    ∀ bs, DiscResult.panic ≠ DiscResult.ok bs :=
  ⟨by decide, by decide, fun bs h => DiscResult.noConfusion h⟩

/-- Witness for C8 (the amended theorem) at the all-ASCII discriminator
`0b12680968ae3b21`. -/
theorem C8_witness :
    (∀ c ∈ ("0b12680968ae3b21" : String).data, c.toNat < 128) ∧
    (ParsedTool.mk "w" none "0b12680968ae3b21" [] []).discriminator_bytes =
      (match specHexValue? ("0b12680968ae3b21" : String).data with
       | some bs =>
           if bs.length < 8 then DiscResult.parseSchemaError
           else DiscResult.ok (bs.take 8)
       | none => DiscResult.parseSchemaError) :=
  ⟨by decide, C8_discriminator_bytes_ascii (ParsedTool.mk "w" none "0b12680968ae3b21" [] [])
    (by decide)⟩

/-! ## C6: pagination aggregation -/

/-- A server following the `nextCursor` contract for an `N`-tool catalog:
page `i` carries one tool and a `nextCursor` iff `i + 1 < N`. -/
def contractFetch (N : Nat) (tool : Nat → ParsedTool) (nc : Nat → String) :
    Nat → Except String ParsedSchema :=
  fun i => .ok ⟨"2024-11-05", "p", [tool i],
                if i + 1 < N then some (nc i) else none⟩

/-- The loop of `list_tools_full` against a contract-following server: from
cursor `c` it performs exactly `N - c` further fetches and ends with the
pages' tools appended and no `nextCursor` left. -/
theorem listToolsFullGo_contract (N : Nat) (tool : Nat → ParsedTool)
    (nc : Nat → String) (hN : N ≤ 101) :
    ∀ (fuel c : Nat) (s : ParsedSchema),
      1 ≤ c → c ≤ N →
      s.next_cursor = (if c < N then some (nc (c - 1)) else none) →
      N - c ≤ fuel →
      (listToolsFullGo (contractFetch N tool nc) fuel s c).2 = N - c ∧
      (listToolsFullGo (contractFetch N tool nc) fuel s c).1 =
        Except.ok ⟨s.version, s.name,
             s.tools ++ (List.range (N - c)).map (fun j => tool (c + j)),
             none⟩ := by
  intro fuel
  induction fuel with
  | zero =>
      intro c s hc1 hcN hinv hfuel
      have hce : c = N := by omega
      have hnone : s.next_cursor = none := by
        rw [hinv, if_neg (by omega)]
      cases s with
      | mk v n ts ncr =>
          simp only at hnone
          subst hnone
          simp [listToolsFullGo, hce]
  | succ fuel ih =>
      intro c s hc1 hcN hinv hfuel
      rcases Nat.lt_or_ge c N with hlt | hge
      · have hsome : s.next_cursor = some (nc (c - 1)) := by
          rw [hinv, if_pos hlt]
        have hmin : min (c + 1) 255 = c + 1 := by omega
        rcases Nat.lt_or_ge 100 (c + 1) with hbreak | hcont
        · -- the 100-cap fires: here c = 100 and N = 101
          have hc100 : c = 100 := by omega
          have hN101 : N = 101 := by omega
          subst hc100; subst hN101
          simp [listToolsFullGo, hsome, contractFetch, hmin, List.range_succ]
        · have hb2 : ¬ 100 < c + 1 := by omega
          have hrec := ih (c + 1)
            ⟨s.version, s.name, s.tools ++ [tool c],
             if c + 1 < N then some (nc c) else none⟩
            (by omega) (by omega) (by simp) (by omega)
          have hlist : s.tools ++ [tool c] ++
              (List.range (N - (c + 1))).map (fun j => tool (c + 1 + j)) =
              s.tools ++ (List.range (N - c)).map (fun j => tool (c + j)) := by
            obtain ⟨M, hM⟩ : ∃ M, N - c = M + 1 := ⟨N - c - 1, by omega⟩
            have hM2 : N - (c + 1) = M := by omega
            rw [hM, hM2, List.range_succ_eq_map, List.append_assoc]
            simp only [List.map_cons, List.map_map, Nat.add_zero,
              List.singleton_append]
            congr 1
            congr 1
            apply List.map_congr_left
            intro j hj
            simp only [Function.comp_apply]
            congr 1
            omega
          simp only [listToolsFullGo, hsome, contractFetch, hmin, hb2, if_false]
          constructor
          · rw [hrec.1]
            omega
          · rw [hrec.2]
            simp [hlist]
      · -- c = N : the loop sees no cursor and stops
        have hce : c = N := by omega
        have hnone : s.next_cursor = none := by
          rw [hinv, if_neg (by omega)]
        cases s with
        | mk v n ts ncr =>
            simp only at hnone
            subst hnone
            simp [listToolsFullGo, hce]

/-- Against any server behaviour, the loop performs at most `101 - c` fetches
from cursor `c ≤ 100`. -/
theorem listToolsFullGo_le (fetch : Nat → Except String ParsedSchema) :
    ∀ (fuel c : Nat) (s : ParsedSchema), c ≤ 100 →
      (listToolsFullGo fetch fuel s c).2 ≤ 101 - c := by
  intro fuel
  induction fuel with
  | zero =>
      intro c s hc
      simp [listToolsFullGo]
  | succ fuel ih =>
      intro c s hc
      unfold listToolsFullGo
      cases s.next_cursor with
      | none => simp
      | some tail =>
          cases fetch c with
          | error e => simp; omega
          | ok next =>
              simp only
              by_cases hbr : 100 < min (c + 1) 255
              · simp [hbr]
                omega
              · have hcc : min (c + 1) 255 = c + 1 := by omega
                have hb2 : ¬ 100 < c + 1 := by omega
                have hih := ih (c + 1)
                  ⟨s.version, s.name, s.tools ++ next.tools, next.next_cursor⟩
                  (by omega)
                simp [hcc, hb2]
                omega

/-- **C6 (amended).** Over a contract-following `N`-tool paginated schema with
`1 ≤ N ≤ 101`, `list_tools_full` performs exactly `N` page fetches starting at
cursor 0 and stops with all `N` tools and no `nextCursor`; for catalogs larger
than 101 pages the 100-iteration safety cap truncates (see the
counterexample), and against any server at most 101 fetches ever happen. -/
theorem C6_pagination_fetch_counts :
    (∀ (N : Nat) (tool : Nat → ParsedTool) (nc : Nat → String),
      1 ≤ N → N ≤ 101 →
      listToolsFullFetches (contractFetch N tool nc) = N ∧
      list_tools_full (contractFetch N tool nc) =
        Except.ok ⟨"2024-11-05", "p", (List.range N).map tool, none⟩) ∧
    (∀ fetch : Nat → Except String ParsedSchema,
      listToolsFullFetches fetch ≤ 101) := by
  constructor
  · intro N tool nc hN1 hN
    have hpage0 : contractFetch N tool nc 0 =
        Except.ok ⟨"2024-11-05", "p", [tool 0],
          if 1 < N then some (nc 0) else none⟩ := by
      simp [contractFetch]
    have hmain := listToolsFullGo_contract N tool nc hN 150 1
      ⟨"2024-11-05", "p", [tool 0], if 1 < N then some (nc 0) else none⟩
      (by omega) (by omega) (by simp) (by omega)
    have hrange : tool 0 :: (List.range (N - 1)).map (fun j => tool (1 + j)) =
        (List.range N).map tool := by
      obtain ⟨M, rfl⟩ : ∃ M, N = M + 1 := ⟨N - 1, by omega⟩
      rw [List.range_succ_eq_map]
      simp only [List.map_cons, List.map_map, Nat.add_sub_cancel]
      congr 1
      apply List.map_congr_left
      intro j hj
      simp only [Function.comp_apply]
      congr 1
      omega
    constructor
    · unfold listToolsFullFetches
      rw [hpage0]
      simp only
      rw [hmain.1]
      omega
    · unfold list_tools_full
      rw [hpage0]
      simp only
      rw [hmain.2]
      simp [hrange]
  · intro fetch
    unfold listToolsFullFetches
    cases hf : fetch 0 with
    | error e => simp
    | ok s =>
        have := listToolsFullGo_le fetch 150 1 s (by omega)
        simp
        omega

/-- A single dummy decoded tool for the C6 counterexample pages. -/
def c6Tool : ParsedTool := ⟨"x", none, "00", [], []⟩

/-- A contract-following server for a 102-tool catalog. -/
def c6Fetch : Nat → Except String ParsedSchema :=
  contractFetch 102 (fun _ => c6Tool) (fun _ => "1")

/-- **C6 (counterexample).** Over a contract-following 102-tool paginated
schema, `list_tools_full` performs 101 page fetches, not 102: the
100-iteration cap stops the loop first. -/
theorem C6_cap_truncates_large_catalog :
    listToolsFullFetches c6Fetch = 101 ∧ (101 : Nat) ≠ 102 := by
  constructor
  · decide
  · decide

/-- Witness for C6 (amended): a concrete 3-tool contract server needs exactly
3 fetches. -/
theorem C6_witness :
    (1 : Nat) ≤ 3 ∧ (3 : Nat) ≤ 101 ∧
    listToolsFullFetches (contractFetch 3 (fun _ => c6Tool) (fun _ => "1")) = 3 :=
  ⟨by decide, by decide,
   ((C6_pagination_fetch_counts.1 3 (fun _ => c6Tool) (fun _ => "1")
      (by decide) (by decide)).1)⟩

/-! ## C9: the size estimator -/

/-- A string none of whose characters needs JSON escaping. -/
def NoJsonEscape (s : String) : Prop :=
  ∀ c ∈ s.data, c ≠ '"' ∧ c ≠ '\\' ∧ c ≠ '\n' ∧ c ≠ '\r' ∧ c ≠ '\t'

instance instDecidableNoJsonEscape (s : String) : Decidable (NoJsonEscape s) :=
  List.decidableBAll _ s.data

/-- Escaping is the identity on escape-free strings. -/
theorem escape_json_eq_self (s : String) (h : NoJsonEscape s) :
    escape_json s = s := by
  unfold escape_json
  have hgen : ∀ l : List Char,
      (∀ c ∈ l, c ≠ '"' ∧ c ≠ '\\' ∧ c ≠ '\n' ∧ c ≠ '\r' ∧ c ≠ '\t') →
      escapeChars l = l := by
    intro l hl
    induction l with
    | nil => rfl
    | cons c cs ih =>
        have hc := hl c (by simp)
        simp [escapeChars, hc.1, hc.2.1, hc.2.2.1, hc.2.2.2.1, hc.2.2.2.2,
          ih (fun x hx => hl x (by simp [hx]))]
  rw [hgen s.data h]

/-- Byte length is additive over string concatenation. -/
theorem byteLen_append (a b : String) :
    byteLen (a ++ b) = byteLen a + byteLen b := by
  simp [byteLen, utf8Encode, String.data_append]

/-- Every character of the hex table is ASCII. -/
theorem hexChar_ascii (n : Nat) : (hexChar n).toNat < 128 := by
  unfold hexChar
  rcases Nat.lt_or_ge n 16 with h | h
  · interval_cases n <;> decide
  · rw [List.getD_eq_default]
    · decide
    · exact le_trans (by decide : HEX_CHARS.length ≤ 16) h

/-- Flattening two characters per byte doubles the length. -/
theorem flatMap_pair_length (l : List Nat) (f g : Nat → Char) :
    (l.flatMap (fun b => [f b, g b])).length = 2 * l.length := by
  induction l with
  | nil => rfl
  | cons x xs ih =>
      simp only [List.flatMap_cons, List.length_append, List.length_cons,
        List.length_nil, ih]
      omega

/-- The hex string of a discriminator is ASCII, two bytes per input byte. -/
theorem byteLen_discriminator_to_hex (d : List Nat) :
    byteLen (discriminator_to_hex d) = 2 * d.length := by
  unfold byteLen discriminator_to_hex utf8Encode
  have hascii : ∀ c ∈ d.flatMap (fun b => [hexChar (b >>> 4), hexChar (b &&& 0x0f)]),
      c.toNat < 128 := by
    intro c hc
    obtain ⟨b, _, hcb⟩ := List.mem_flatMap.mp hc
    simp only [List.mem_cons, List.mem_singleton, List.not_mem_nil, or_false] at hcb
    rcases hcb with h | h
    · exact h ▸ hexChar_ascii _
    · exact h ▸ hexChar_ascii _
  rw [show (String.mk (d.flatMap (fun b => [hexChar (b >>> 4), hexChar (b &&& 0x0f)]))).data
      = d.flatMap (fun b => [hexChar (b >>> 4), hexChar (b &&& 0x0f)]) from rfl]
  rw [ascii_flatMap_utf8 _ hascii, List.length_map, flatMap_pair_length]

/-- A builder-derived discriminator has exactly 8 bytes. -/
theorem instruction_discriminator_length (name : String) :
    (instruction_discriminator name).length = 8 := by
  unfold instruction_discriminator hash_to_discriminator sha256
  simp [be32]

/-- Per-tool conservativeness of the estimator for parameterless tools with
escape-free strings: the generated tool JSON is at least 14 bytes below the
estimate. -/
theorem tool_json_size_le (t : McpTool)
    (hacc : t.accounts = []) (harg : t.args = [])
    (hname : NoJsonEscape t.name)
    (hdesc : NoJsonEscape (t.description.getD ""))
    (hd : t.discriminator.length = 8) :
    byteLen (generate_tool_json t) + 14 ≤ estimate_single_tool_size (some t) := by
  unfold generate_tool_json estimate_single_tool_size
  rw [hacc, harg]
  have h1 : byteLen "\x7b\"n\":\"" = 6 := by decide
  have h2 : byteLen "\"" = 1 := by decide
  have h3 : byteLen ",\"d\":\"" = 6 := by decide
  have h4 : byteLen "\"\x7d" = 2 := by decide
  have h5 : byteLen "" = 0 := by decide
  have h6 : byteLen ",\"i\":\"" = 6 := by decide
  cases hde : t.description with
  | none =>
      simp only [hde, List.isEmpty_nil, Bool.and_self, if_true, List.map_nil,
        List.sum_nil, byteLen_append, escape_json_eq_self _ hname,
        byteLen_discriminator_to_hex, hd]
      omega
  | some d =>
      have hdl : NoJsonEscape d := by
        rw [hde] at hdesc
        simpa using hdesc
      simp only [hde, List.isEmpty_nil, Bool.and_self, if_true, List.map_nil,
        List.sum_nil, byteLen_append, escape_json_eq_self _ hname,
        escape_json_eq_self _ hdl, byteLen_discriminator_to_hex, hd]
      omega

/-- Joining with commas costs at most one byte per entry beyond the entries. -/
theorem byteLen_joinComma_le :
    ∀ l : List String, byteLen (joinComma l) ≤ (l.map byteLen).sum + l.length
  | [] => by decide
  | [x] => by
      rw [show joinComma [x] = x from rfl]
      simp only [List.map_cons, List.map_nil, List.sum_cons, List.sum_nil,
        List.length_cons, List.length_nil]
      omega
  | x :: y :: tl => by
      have ih := byteLen_joinComma_le (y :: tl)
      have hcomma : byteLen "," = 1 := by decide
      rw [show joinComma (x :: y :: tl) = x ++ "," ++ joinComma (y :: tl) from rfl]
      simp only [byteLen_append, List.map_cons, List.sum_cons, List.length_cons] at *
      omega

/-- Summed per-tool conservativeness over a tool list. -/
theorem tools_sum_le (ts : List McpTool)
    (h : ∀ t ∈ ts, t.Built ∧ t.accounts = [] ∧ t.args = [] ∧
        NoJsonEscape t.name ∧ NoJsonEscape (t.description.getD "")) :
    ((ts.map generate_tool_json).map byteLen).sum + 14 * ts.length ≤
      (ts.map (fun t => estimate_single_tool_size (some t))).sum := by
  induction ts with
  | nil => simp
  | cons t ts ih =>
      have ht := h t (by simp)
      have hd8 : t.discriminator.length = 8 := by
        rw [ht.1]
        exact instruction_discriminator_length t.name
      have h1 := tool_json_size_le t ht.2.1 ht.2.2.1 ht.2.2.2.1 ht.2.2.2.2 hd8
      have ih2 := ih (fun u hu => h u (by simp [hu]))
      simp only [List.map_cons, List.sum_cons, List.length_cons] at *
      omega

set_option maxRecDepth 4096 in
/-- **C9 (counterexample).** A builder-built schema with a single tool whose
one account has a 16-character name: the estimator counts the account name
once although it is serialized twice (in `p` and in `r`), so the estimate
(129 bytes) is below the actual compact encoding length (131 bytes). -/
theorem C9_estimator_underestimates :
    estimate_schema_size (McpSchema.mk "p"
      [buildTool "t" none [McpAccountMeta.mk "aaaaaaaaaaaaaaaa" none false false] []]) <
    (generate_schema_bytes (McpSchema.mk "p"
      [buildTool "t" none [McpAccountMeta.mk "aaaaaaaaaaaaaaaa" none false false] []])).length := by
  decide

/-- **C9 (amended).** The estimator is not conservative in general (see the
counterexample: parameter names are counted once but serialized twice, in `p`
and in `r`). It is conservative for builder-built schemas whose strings are
escape-free and whose tools are parameterless: there the compact encoding
never exceeds the estimate. -/
theorem C9_estimator_conservative_parameterless :
    ∀ schema : McpSchema,
      schema.Built →
      NoJsonEscape schema.name →
      (∀ t ∈ schema.tools,
        t.accounts = [] ∧ t.args = [] ∧ NoJsonEscape t.name ∧
        NoJsonEscape (t.description.getD "")) →
      (generate_schema_bytes schema).length ≤ estimate_schema_size schema := by
  intro schema hbuilt hname htools
  have hlen : (generate_schema_bytes schema).length =
      byteLen (generate_compact_schema schema) := rfl
  rw [hlen]
  unfold generate_compact_schema estimate_schema_size
  have hsum := tools_sum_le schema.tools
    (fun t ht => ⟨hbuilt t ht, (htools t ht).1, (htools t ht).2.1,
      (htools t ht).2.2.1, (htools t ht).2.2.2⟩)
  have hjoin := byteLen_joinComma_le (schema.tools.map generate_tool_json)
  simp only [byteLen_append, escape_json_eq_self _ hname]
  have h1 : byteLen "\x7b\"v\":\"" = 6 := by decide
  have h2 : byteLen PROTOCOL_VERSION = 10 := by decide
  have h3 : byteLen "\",\"name\":\"" = 10 := by decide
  have h4 : byteLen "\",\"tools\":[" = 11 := by decide
  have h5 : byteLen "]\x7d" = 2 := by decide
  have hlentools : (schema.tools.map generate_tool_json).length = schema.tools.length := by
    simp
  rw [hlentools] at hjoin
  omega

/-- Witness for C9 (amended): a one-tool parameterless schema with a
description. -/
theorem C9_witness :
    (McpSchema.mk "p" [buildTool "t" (some "d") [] []]).Built ∧
    NoJsonEscape "p" ∧
    (generate_schema_bytes (McpSchema.mk "p" [buildTool "t" (some "d") [] []])).length ≤
      estimate_schema_size (McpSchema.mk "p" [buildTool "t" (some "d") [] []]) := by
  have hb : (McpSchema.mk "p" [buildTool "t" (some "d") [] []]).Built := by
    intro t ht
    simp only [List.mem_singleton] at ht
    rw [ht]
    rfl
  refine ⟨hb, by decide, ?_⟩
  exact C9_estimator_conservative_parameterless _ hb (by decide)
    (by
      intro t ht
      simp only [List.mem_singleton] at ht
      rw [ht]
      exact ⟨rfl, rfl, by decide, by decide⟩)

/-! ## C3: decoding the compact document (the client's serde_json parse)

The client parses schema documents with serde_json. We model the JSON
grammar restricted to the value forms the schema wire format uses — strings
with the five escapes the encoder emits, objects, arrays, booleans, null, no
insignificant whitespace (the encoder emits none) — and, as standard JSON
requires and serde_json enforces, reject raw control characters inside
strings. Object/array nesting is fuel-bounded; the input length plus one
always suffices (each recursive step consumes input). -/

/-- Parse a JSON string body after the opening quote: content up to the
closing quote, unescaping; a raw control character is rejected. -/
def parseStringBody : List Char → Option (List Char × List Char)
  | [] => none
  | '"' :: rest => some ([], rest)
  | '\\' :: [] => none
  | '\\' :: e :: rest2 =>
      (match e with
       | '"' => some '"'
       | '\\' => some '\\'
       | 'n' => some '\n'
       | 'r' => some '\r'
       | 't' => some '\t'
       | _ => none).bind
        (fun d => (parseStringBody rest2).map
          (fun (p : List Char × List Char) => (d :: p.1, p.2)))
  | c :: rest =>
      if c.toNat < 0x20 then none
      else (parseStringBody rest).map (fun p => (c :: p.1, p.2))

/-- Parse the members of a nonempty JSON object, after the opening brace:
the value parser is passed in (it is the value parser at the enclosing fuel),
the fuel bounds the number of members. -/
def parseMembersWith (pv : List Char → Option (Json × List Char)) :
    Nat → List Char → Option (List (String × Json) × List Char)
  | 0, _ => none
  | n + 1, '"' :: rest =>
      match parseStringBody rest with
      | none => none
      | some (k, r1) =>
          match r1 with
          | ':' :: r2 =>
              (match pv r2 with
               | none => none
               | some (v, r3) =>
                   match r3 with
                   | ',' :: r4 =>
                       (parseMembersWith pv n r4).map
                         (fun p => ((String.mk k, v) :: p.1, p.2))
                   | '\x7d' :: r4 => some ([(String.mk k, v)], r4)
                   | _ => none)
          | _ => none
  | _ + 1, _ => none

/-- Parse the elements of a nonempty JSON array, after the opening bracket. -/
def parseElemsWith (pv : List Char → Option (Json × List Char)) :
    Nat → List Char → Option (List Json × List Char)
  | 0, _ => none
  | n + 1, cs =>
      match pv cs with
      | none => none
      | some (v, r1) =>
          match r1 with
          | ',' :: r2 => (parseElemsWith pv n r2).map (fun p => (v :: p.1, p.2))
          | ']' :: r2 => some ([v], r2)
          | _ => none

/-- Parse one JSON value (fuel-bounded; nested values and container loops run
at one fuel less). -/
def parseValue : Nat → List Char → Option (Json × List Char)
  | 0, _ => none
  | _ + 1, '"' :: rest =>
      (parseStringBody rest).map (fun p => (Json.str (String.mk p.1), p.2))
  | _ + 1, '\x7b' :: '\x7d' :: rest => some (Json.obj [], rest)
  | n + 1, '\x7b' :: rest =>
      (parseMembersWith (fun cs => parseValue n cs) n rest).map
        (fun p => (Json.obj p.1, p.2))
  | _ + 1, '[' :: ']' :: rest => some (Json.arr [], rest)
  | n + 1, '[' :: rest =>
      (parseElemsWith (fun cs => parseValue n cs) n rest).map
        (fun p => (Json.arr p.1, p.2))
  | _ + 1, 't' :: 'r' :: 'u' :: 'e' :: rest => some (Json.boolean true, rest)
  | _ + 1, 'f' :: 'a' :: 'l' :: 's' :: 'e' :: rest => some (Json.boolean false, rest)
  | _ + 1, 'n' :: 'u' :: 'l' :: 'l' :: rest => some (Json.null, rest)
  | _ + 1, _ => none

/-- Parse a whole JSON document: one value consuming the entire input. -/
def jsonParse (s : String) : Option Json :=
  match parseValue (s.data.length + 1) s.data with
  | some (j, []) => some j
  | _ => none

/-- serde field lookup, honouring the field's name and aliases. -/
def getFieldAny (fields : List (String × Json)) (keys : List String) : Option Json :=
  (fields.find? (fun p => keys.contains p.1)).map (fun p => p.2)

/-- Deserialize a JSON array of strings (the `required` vector). -/
def stringList : List Json → Option (List String)
  | [] => some []
  | Json.str s :: tl => (stringList tl).map (fun l => s :: l)
  | _ => none

/-- `serde_json::Map` insertion: replace in place, else append. -/
def mapInsert (m : List (String × Json)) (k : String) (v : Json) :
    List (String × Json) :=
  if m.any (fun p => p.1 == k) then
    m.map (fun p => if p.1 == k then (p.1, v) else p)
  else m ++ [(k, v)]

/-- Collect a parsed object into a `serde_json::Map` (last duplicate wins;
the key-ordering policy of the map does not affect any claim settled here). -/
def buildMap (l : List (String × Json)) : List (String × Json) :=
  l.foldl (fun m p => mapInsert m p.1 p.2) []

/-- serde deserialization of `ParsedTool` (aliases n/name, i/description,
d/discriminator, p/params/parameters, r/required; the latter two default). -/
def parsedToolOfJson : Json → Option ParsedTool
  | Json.obj fields =>
      match getFieldAny fields ["name", "n"] with
      | some (Json.str nm) =>
          (match getFieldAny fields ["description", "i"] with
           | none => some none
           | some Json.null => some none
           | some (Json.str d) => some (some d)
           | some _ => none).bind (fun descr =>
            match getFieldAny fields ["discriminator", "d"] with
            | some (Json.str dx) =>
                (match getFieldAny fields ["params", "p", "parameters"] with
                 | none => some []
                 | some (Json.obj ps) => some (buildMap ps)
                 | some _ => none).bind (fun params =>
                  (match getFieldAny fields ["required", "r"] with
                   | none => some []
                   | some (Json.arr rs) => stringList rs
                   | some _ => none).map (fun req =>
                    ParsedTool.mk nm descr dx params req))
            | _ => none)
      | _ => none
  | _ => none

/-- Deserialize the `tools` array. -/
def toolList : List Json → Option (List ParsedTool)
  | [] => some []
  | j :: tl =>
      match parsedToolOfJson j with
      | some t => (toolList tl).map (fun l => t :: l)
      | none => none

/-- serde deserialization of `ParsedSchema` (v, name, tools required;
nextCursor optional). -/
def parsedSchemaOfJson : Json → Option ParsedSchema
  | Json.obj fields =>
      match getFieldAny fields ["v"] with
      | some (Json.str v) =>
          match getFieldAny fields ["name"] with
          | some (Json.str nm) =>
              match getFieldAny fields ["tools"] with
              | some (Json.arr ts) =>
                  (toolList ts).bind (fun tools =>
                    match getFieldAny fields ["nextCursor"] with
                    | none => some (ParsedSchema.mk v nm tools none)
                    | some Json.null => some (ParsedSchema.mk v nm tools none)
                    | some (Json.str ncs) => some (ParsedSchema.mk v nm tools (some ncs))
                    | some _ => none)
              | _ => none
          | _ => none
      | _ => none
  | _ => none

/-- The client's decode of a schema document: serde_json parse, then
deserialize into `ParsedSchema`. -/
def decodeSchema (s : String) : Option ParsedSchema :=
  (jsonParse s).bind parsedSchemaOfJson

/-- A character standard JSON may carry inside a string either raw or through
one of the encoder's escapes: not a raw control character, except the three
the encoder escapes (newline, carriage return, tab). -/
def GoodChar (c : Char) : Prop :=
  0x20 ≤ c.toNat ∨ c = '\n' ∨ c = '\r' ∨ c = '\t'

instance instDecidableGoodChar (c : Char) : Decidable (GoodChar c) := by
  unfold GoodChar
  infer_instance

/-- A string whose characters all survive the encode/parse round trip. -/
def NoControl (s : String) : Prop := ∀ c ∈ s.data, GoodChar c

instance instDecidableNoControl (s : String) : Decidable (NoControl s) :=
  List.decidableBAll _ s.data

/-! ## C3: round-trip lemmas — strings, members, elements -/

/-- Escaping distributes over concatenation. -/
theorem escapeChars_append (a b : List Char) :
    escapeChars (a ++ b) = escapeChars a ++ escapeChars b := by
  induction a with
  | nil => rfl
  | cons c cs ih => simp [escapeChars, ih]

/-- Escaping fixes strings that contain none of the five escaped characters. -/
theorem escapeChars_id (l : List Char)
    (h : ∀ c ∈ l, c ≠ '"' ∧ c ≠ '\\' ∧ c ≠ '\n' ∧ c ≠ '\r' ∧ c ≠ '\t') :
    escapeChars l = l := by
  induction l with
  | nil => rfl
  | cons c cs ih =>
      have hc := h c (by simp)
      simp [escapeChars, hc.1, hc.2.1, hc.2.2.1, hc.2.2.2.1, hc.2.2.2.2,
        ih (fun x hx => h x (by simp [hx]))]

/-- Parsing inverts escaping: the string-body parser consumes the escaped
form of a control-free string up to the closing quote. -/
theorem parseStringBody_escape :
    ∀ (s : List Char), (∀ c ∈ s, GoodChar c) →
      ∀ rest, parseStringBody (escapeChars s ++ '"' :: rest) = some (s, rest) := by
  intro s hs
  induction s with
  | nil =>
      intro rest
      simp [escapeChars, parseStringBody]
  | cons c cs ih =>
      intro rest
      have hc := hs c (by simp)
      have ih2 := ih (fun x hx => hs x (by simp [hx]))
      by_cases h1 : c = '"'
      · subst h1
        simp [escapeChars, parseStringBody, ih2]
      · by_cases h2 : c = '\\'
        · subst h2
          simp [escapeChars, parseStringBody, ih2]
        · by_cases h3 : c = '\n'
          · subst h3
            simp [escapeChars, parseStringBody, ih2]
          · by_cases h4 : c = '\r'
            · subst h4
              simp [escapeChars, parseStringBody, ih2]
            · by_cases h5 : c = '\t'
              · subst h5
                simp [escapeChars, parseStringBody, ih2]
              · have hge : ¬ c.toNat < 0x20 := by
                  rcases hc with h | h | h | h
                  · omega
                  all_goals (subst h; simp at *)
                simp [escapeChars, h1, h2, h3, h4, h5, parseStringBody, hge, ih2]

/-- A JSON string literal parses back to its string. -/
theorem parseValue_str (s : String) (h : NoControl s) (n : Nat) (rest : List Char) :
    parseValue (n + 1) ('"' :: (escapeChars s.data ++ '"' :: rest)) =
      some (Json.str s, rest) := by
  rw [show parseValue (n + 1) ('"' :: (escapeChars s.data ++ '"' :: rest)) =
      (parseStringBody (escapeChars s.data ++ '"' :: rest)).map
        (fun p => (Json.str (String.mk p.1), p.2)) from rfl]
  rw [parseStringBody_escape s.data h rest]
  rfl

/-- Character-level comma join (what `joinComma` does to the data lists). -/
def joinCommaL : List (List Char) → List Char
  | [] => []
  | [x] => x
  | x :: xs => x ++ ',' :: joinCommaL xs

/-- `joinComma` at the character level. -/
theorem joinComma_data :
    ∀ l : List String, (joinComma l).data = joinCommaL (l.map String.data)
  | [] => rfl
  | [x] => rfl
  | x :: y :: tl => by
      rw [show joinComma (x :: y :: tl) = x ++ "," ++ joinComma (y :: tl) from rfl,
        show joinCommaL (List.map String.data (x :: y :: tl)) =
          x.data ++ ',' :: joinCommaL (List.map String.data (y :: tl)) from rfl]
      simp [String.data_append, joinComma_data (y :: tl)]

/-- The printed form of one string-valued object member. -/
def printedStrMember (k v : String) : List Char :=
  '"' :: escapeChars k.data ++ '"' :: ':' :: '"' :: escapeChars v.data ++ ['"']

set_option maxHeartbeats 1000000 in
/-- A nonempty run of string-valued members parses back to its member list,
for any value parser that handles string literals. -/
theorem parseMembersWith_strpairs
    (pv : List Char → Option (Json × List Char))
    (hpv : ∀ (v : String) (r : List Char), NoControl v →
      pv ('"' :: (escapeChars v.data ++ '"' :: r)) = some (Json.str v, r)) :
    ∀ (es : List (String × String)), es ≠ [] →
      (∀ e ∈ es, NoControl e.1 ∧ NoControl e.2) →
      ∀ (n : Nat), es.length ≤ n → ∀ rest,
        parseMembersWith pv n
          (joinCommaL (es.map (fun e => printedStrMember e.1 e.2)) ++ '\x7d' :: rest) =
          some (es.map (fun e => (e.1, Json.str e.2)), rest)
  | [], hne, _, _, _, _ => absurd rfl hne
  | [e], _, hg, n, hn, rest => by
      obtain ⟨n1, rfl⟩ : ∃ n1, n = n1 + 1 := ⟨n - 1, by simp at hn; omega⟩
      have hge := hg e (by simp)
      have hshape : joinCommaL ([e].map (fun e => printedStrMember e.1 e.2)) ++ '\x7d' :: rest
          = '"' :: (escapeChars e.1.data ++ '"' ::
              (':' :: ('"' :: (escapeChars e.2.data ++ '"' :: '\x7d' :: rest)))) := by
        simp [joinCommaL, printedStrMember]
      rw [hshape]
      simp only [parseMembersWith]
      rw [parseStringBody_escape e.1.data hge.1]
      simp only
      rw [hpv e.2 ('\x7d' :: rest) hge.2]
      simp
  | e :: e2 :: tl, _, hg, n, hn, rest => by
      obtain ⟨n1, rfl⟩ : ∃ n1, n = n1 + 1 := ⟨n - 1, by simp at hn; omega⟩
      have hn1 : (e2 :: tl).length ≤ n1 := by simp at hn ⊢; omega
      have hge := hg e (by simp)
      have hih := parseMembersWith_strpairs pv hpv (e2 :: tl) (by simp)
        (fun x hx => hg x (by simp at hx ⊢; tauto)) n1 hn1 rest
      have hshape : joinCommaL ((e :: e2 :: tl).map (fun e => printedStrMember e.1 e.2))
            ++ '\x7d' :: rest
          = '"' :: (escapeChars e.1.data ++ '"' ::
              (':' :: ('"' :: (escapeChars e.2.data ++ '"' :: ',' ::
                (joinCommaL ((e2 :: tl).map (fun e => printedStrMember e.1 e.2))
                  ++ '\x7d' :: rest))))) := by
        simp [joinCommaL, printedStrMember]
      rw [hshape]
      simp only [parseMembersWith]
      rw [parseStringBody_escape e.1.data hge.1]
      simp only
      rw [hpv e.2 (',' :: (joinCommaL ((e2 :: tl).map (fun e => printedStrMember e.1 e.2))
            ++ '\x7d' :: rest)) hge.2]
      simp only [hih, Option.map_some]
      simp

set_option maxHeartbeats 1000000 in
/-- A nonempty run of string elements parses back to its list, for any value
parser that handles string literals. -/
theorem parseElemsWith_strings
    (pv : List Char → Option (Json × List Char))
    (hpv : ∀ (v : String) (r : List Char), NoControl v →
      pv ('"' :: (escapeChars v.data ++ '"' :: r)) = some (Json.str v, r)) :
    ∀ (ss : List String), ss ≠ [] →
      (∀ s ∈ ss, NoControl s) →
      ∀ (n : Nat), ss.length ≤ n → ∀ rest,
        parseElemsWith pv n
          (joinCommaL (ss.map (fun s => '"' :: escapeChars s.data ++ ['"'])) ++ ']' :: rest) =
          some (ss.map Json.str, rest)
  | [], hne, _, _, _, _ => absurd rfl hne
  | [s], _, hg, n, hn, rest => by
      obtain ⟨n1, rfl⟩ : ∃ n1, n = n1 + 1 := ⟨n - 1, by simp at hn; omega⟩
      have hgs := hg s (by simp)
      have hshape : joinCommaL ([s].map (fun s => '"' :: escapeChars s.data ++ ['"'])) ++ ']' :: rest
          = '"' :: (escapeChars s.data ++ '"' :: ']' :: rest) := by
        simp [joinCommaL]
      rw [hshape]
      simp only [parseElemsWith]
      rw [hpv s (']' :: rest) hgs]
      simp
  | s :: s2 :: tl, _, hg, n, hn, rest => by
      obtain ⟨n1, rfl⟩ : ∃ n1, n = n1 + 1 := ⟨n - 1, by simp at hn; omega⟩
      have hn1 : (s2 :: tl).length ≤ n1 := by simp at hn ⊢; omega
      have hgs := hg s (by simp)
      have hih := parseElemsWith_strings pv hpv (s2 :: tl) (by simp)
        (fun x hx => hg x (by simp at hx ⊢; tauto)) n1 hn1 rest
      have hshape : joinCommaL ((s :: s2 :: tl).map (fun s => '"' :: escapeChars s.data ++ ['"']))
            ++ ']' :: rest
          = '"' :: (escapeChars s.data ++ '"' :: ',' ::
              (joinCommaL ((s2 :: tl).map (fun s => '"' :: escapeChars s.data ++ ['"']))
                ++ ']' :: rest)) := by
        simp [joinCommaL]
      rw [hshape]
      simp only [parseElemsWith]
      rw [hpv s (',' :: (joinCommaL ((s2 :: tl).map (fun s => '"' :: escapeChars s.data ++ ['"']))
            ++ ']' :: rest)) hgs]
      simp only [hih, Option.map_some]
      simp

/-! ## C3: values that are objects/arrays of strings; the expected trees -/

/-- Reduction of `parseValue` on an object whose first member begins. -/
theorem parseValue_obj_quote (m : Nat) (cs : List Char) :
    parseValue (m + 1) ('\x7b' :: '"' :: cs) =
      (parseMembersWith (fun l => parseValue m l) m ('"' :: cs)).map
        (fun p => (Json.obj p.1, p.2)) := rfl

/-- Reduction of `parseValue` on an array whose first element is a string. -/
theorem parseValue_arr_quote (m : Nat) (cs : List Char) :
    parseValue (m + 1) ('[' :: '"' :: cs) =
      (parseElemsWith (fun l => parseValue m l) m ('"' :: cs)).map
        (fun p => (Json.arr p.1, p.2)) := rfl

/-- Reduction of `parseValue` on an array whose first element is an object. -/
theorem parseValue_arr_obj (m : Nat) (cs : List Char) :
    parseValue (m + 1) ('[' :: '\x7b' :: cs) =
      (parseElemsWith (fun l => parseValue m l) m ('\x7b' :: cs)).map
        (fun p => (Json.arr p.1, p.2)) := rfl

/-- Reduction of `parseValue` on the empty array. -/
theorem parseValue_arr_empty (m : Nat) (cs : List Char) :
    parseValue (m + 1) ('[' :: ']' :: cs) = some (Json.arr [], cs) := rfl

/-- Reduction of `parseMembersWith` on a beginning member. -/
theorem parseMembersWith_step (pv : List Char → Option (Json × List Char))
    (m : Nat) (cs : List Char) :
    parseMembersWith pv (m + 1) ('"' :: cs) =
      (match parseStringBody cs with
       | none => none
       | some (k, r1) =>
           match r1 with
           | ':' :: r2 =>
               (match pv r2 with
                | none => none
                | some (v, r3) =>
                    match r3 with
                    | ',' :: r4 =>
                        (parseMembersWith pv m r4).map
                          (fun p => ((String.mk k, v) :: p.1, p.2))
                    | '\x7d' :: r4 => some ([(String.mk k, v)], r4)
                    | _ => none)
           | _ => none) := rfl

/-- An object of string members parses back as a value. -/
theorem parseValue_strobj (es : List (String × String)) (hne : es ≠ [])
    (hg : ∀ e ∈ es, NoControl e.1 ∧ NoControl e.2)
    (n : Nat) (hn : es.length + 1 ≤ n) (rest : List Char) :
    parseValue (n + 1)
      ('\x7b' :: (joinCommaL (es.map (fun e => printedStrMember e.1 e.2)) ++ '\x7d' :: rest)) =
      some (Json.obj (es.map (fun e => (e.1, Json.str e.2))), rest) := by
  obtain ⟨e, tl, rfl⟩ : ∃ e tl, es = e :: tl := by
    cases es with
    | nil => exact absurd rfl hne
    | cons e tl => exact ⟨e, tl, rfl⟩
  obtain ⟨n1, rfl⟩ : ∃ n1, n = n1 + 1 := ⟨n - 1, by simp at hn; omega⟩
  have hpv : ∀ (v : String) (r : List Char), NoControl v →
      parseValue (n1 + 1) ('"' :: (escapeChars v.data ++ '"' :: r)) =
        some (Json.str v, r) := fun v r hv => parseValue_str v hv n1 r
  have hmem := parseMembersWith_strpairs (fun cs => parseValue (n1 + 1) cs) hpv (e :: tl)
    (by simp) hg (n1 + 1) (by simp at hn ⊢; omega) rest
  obtain ⟨r0, hr0⟩ : ∃ r0,
      joinCommaL ((e :: tl).map (fun e => printedStrMember e.1 e.2)) ++ '\x7d' :: rest
        = '"' :: r0 := by
    cases tl with
    | nil =>
        exact ⟨escapeChars e.1.data ++ '"' :: ':' :: '"' :: escapeChars e.2.data
          ++ '"' :: '\x7d' :: rest, by simp [joinCommaL, printedStrMember]⟩
    | cons a b =>
        exact ⟨escapeChars e.1.data ++ '"' :: ':' :: '"' :: escapeChars e.2.data
          ++ '"' :: ',' :: (joinCommaL ((a :: b).map (fun e => printedStrMember e.1 e.2))
            ++ '\x7d' :: rest), by simp [joinCommaL, printedStrMember]⟩
  rw [hr0] at hmem ⊢
  rw [parseValue_obj_quote, hmem]
  rfl

/-- An array of string elements parses back as a value. -/
theorem parseValue_strarr (ss : List String) (hne : ss ≠ [])
    (hg : ∀ s ∈ ss, NoControl s)
    (n : Nat) (hn : ss.length + 1 ≤ n) (rest : List Char) :
    parseValue (n + 1)
      ('[' :: (joinCommaL (ss.map (fun s => '"' :: escapeChars s.data ++ ['"'])) ++ ']' :: rest)) =
      some (Json.arr (ss.map Json.str), rest) := by
  obtain ⟨s, tl, rfl⟩ : ∃ s tl, ss = s :: tl := by
    cases ss with
    | nil => exact absurd rfl hne
    | cons s tl => exact ⟨s, tl, rfl⟩
  obtain ⟨n1, rfl⟩ : ∃ n1, n = n1 + 1 := ⟨n - 1, by simp at hn; omega⟩
  have hpv : ∀ (v : String) (r : List Char), NoControl v →
      parseValue (n1 + 1) ('"' :: (escapeChars v.data ++ '"' :: r)) =
        some (Json.str v, r) := fun v r hv => parseValue_str v hv n1 r
  have helems := parseElemsWith_strings (fun cs => parseValue (n1 + 1) cs) hpv (s :: tl)
    (by simp) hg (n1 + 1) (by simp at hn ⊢; omega) rest
  obtain ⟨r0, hr0⟩ : ∃ r0,
      joinCommaL ((s :: tl).map (fun s => '"' :: escapeChars s.data ++ ['"'])) ++ ']' :: rest
        = '"' :: r0 := by
    cases tl with
    | nil =>
        exact ⟨escapeChars s.data ++ '"' :: ']' :: rest, by simp [joinCommaL]⟩
    | cons a b =>
        exact ⟨escapeChars s.data ++ '"' :: ',' ::
          (joinCommaL ((a :: b).map (fun s => '"' :: escapeChars s.data ++ ['"']))
            ++ ']' :: rest), by simp [joinCommaL]⟩
  rw [hr0] at helems ⊢
  rw [parseValue_arr_quote, helems]
  rfl

/-- The parameter map entries of a tool in `p`-order: suffixed account names
(as "pubkey"), then argument names with their compact type tokens — the key
strings are the unescaped forms the client parses back. -/
def pPairs (t : McpTool) : List (String × String) :=
  t.accounts.map (fun a => (a.name ++ a.suffix, "pubkey")) ++
  t.args.map (fun g => (g.name, g.arg_type.compact_name))

/-- The `r`-array contents after parsing: suffixed account names then
argument names. -/
def requiredKeyStrings (t : McpTool) : List String :=
  (pPairs t).map (fun e => e.1)

/-- The JSON value tree of one compact-encoded tool. -/
def toolFields (t : McpTool) : List (String × Json) :=
  ("n", Json.str t.name) ::
  ((match t.description with
    | some d => [("i", Json.str d)]
    | none => []) ++
   (("d", Json.str (discriminator_to_hex t.discriminator)) ::
    (if t.accounts.isEmpty && t.args.isEmpty then []
     else [("p", Json.obj ((pPairs t).map (fun e => (e.1, Json.str e.2)))),
           ("r", Json.arr ((requiredKeyStrings t).map Json.str))])))

/-- The JSON value of one compact-encoded tool. -/
def toolTree (t : McpTool) : Json := Json.obj (toolFields t)

/-- The JSON value of the whole compact document. -/
def schemaTree (schema : McpSchema) : Json :=
  Json.obj [("v", Json.str PROTOCOL_VERSION), ("name", Json.str schema.name),
            ("tools", Json.arr (schema.tools.map toolTree))]

/-- The `ParsedTool` the client obtains from one compact-encoded tool. -/
def expectedTool (t : McpTool) : ParsedTool :=
  ⟨t.name, t.description, discriminator_to_hex t.discriminator,
   buildMap ((pPairs t).map (fun e => (e.1, Json.str e.2))),
   if t.accounts.isEmpty && t.args.isEmpty then [] else requiredKeyStrings t⟩

/-- The `ParsedSchema` the client obtains from the compact document. -/
def expectedSchema (schema : McpSchema) : ParsedSchema :=
  ⟨PROTOCOL_VERSION, schema.name, schema.tools.map expectedTool, none⟩

/-! ## C3: bridges between the generated strings and the parse shapes -/

/-- `NoControl` is preserved by concatenation. -/
theorem NoControl_append (x y : String) (hx : NoControl x) (hy : NoControl y) :
    NoControl (x ++ y) := by
  intro c hc
  rw [String.data_append] at hc
  rcases List.mem_append.mp hc with h | h
  · exact hx c h
  · exact hy c h

/-- `escape_json` at the character level. -/
theorem escape_json_data (s : String) :
    (escape_json s).data = escapeChars s.data := rfl

/-- Account suffixes are escape-free and control-free. -/
theorem suffix_plain (m : McpAccountMeta) :
    escapeChars m.suffix.data = m.suffix.data ∧ NoControl m.suffix := by
  rcases m with ⟨nm, d, s, w⟩
  cases s <;> cases w <;> simp [McpAccountMeta.suffix] <;> decide

/-- Compact type tokens are escape-free and control-free. -/
theorem compactName_plain (a : ArgType) :
    escapeChars a.compact_name.data = a.compact_name.data ∧
      NoControl a.compact_name := by
  cases a <;> simp [ArgType.compact_name] <;> decide

/-- Hex characters are plain: printable and not escaped. -/
theorem hexChar_plain (n : Nat) :
    (hexChar n ≠ '"' ∧ hexChar n ≠ '\\' ∧ hexChar n ≠ '\n' ∧ hexChar n ≠ '\r' ∧
      hexChar n ≠ '\t') ∧ GoodChar (hexChar n) := by
  unfold hexChar
  rcases Nat.lt_or_ge n 16 with h | h
  · interval_cases n <;> exact ⟨by decide, by decide⟩
  · rw [List.getD_eq_default]
    · exact ⟨by decide, by decide⟩
    · exact le_trans (by decide : HEX_CHARS.length ≤ 16) h

/-- A discriminator hex string is control-free. -/
theorem hexString_NoControl (d : List Nat) :
    NoControl (discriminator_to_hex d) := by
  intro c hc
  simp only [discriminator_to_hex] at hc
  obtain ⟨b, _, hcb⟩ := List.mem_flatMap.mp hc
  simp only [List.mem_cons, List.mem_singleton, List.not_mem_nil, or_false] at hcb
  rcases hcb with h | h <;> exact h ▸ (hexChar_plain _).2

/-- A discriminator hex string needs no escaping. -/
theorem hexString_escape_id (d : List Nat) :
    escapeChars (discriminator_to_hex d).data = (discriminator_to_hex d).data := by
  apply escapeChars_id
  intro c hc
  simp only [discriminator_to_hex] at hc
  obtain ⟨b, _, hcb⟩ := List.mem_flatMap.mp hc
  simp only [List.mem_cons, List.mem_singleton, List.not_mem_nil, or_false] at hcb
  rcases hcb with h | h <;> exact h ▸ (hexChar_plain _).1

/-- One compact account entry at the character level. -/
theorem compactAccountEntry_data (a : McpAccountMeta) :
    (compactAccountEntry a).data = printedStrMember (a.name ++ a.suffix) "pubkey" := by
  unfold compactAccountEntry printedStrMember
  simp [String.data_append, escape_json_data, escapeChars_append,
    (suffix_plain a).1, show escapeChars ("pubkey" : String).data = ("pubkey" : String).data by decide]

/-- One compact argument entry at the character level. -/
theorem compactArgEntry_data (g : McpArg) :
    (compactArgEntry g).data = printedStrMember g.name g.arg_type.compact_name := by
  unfold compactArgEntry printedStrMember
  simp [String.data_append, escape_json_data, escapeChars_append,
    (compactName_plain g.arg_type).1]

/-- The compact `p` object body at the character level. -/
theorem pJoin_data (t : McpTool) :
    (joinComma (t.accounts.map compactAccountEntry ++ t.args.map compactArgEntry)).data =
      joinCommaL ((pPairs t).map (fun e => printedStrMember e.1 e.2)) := by
  rw [joinComma_data]
  congr 1
  simp only [pPairs, List.map_append, List.map_map]
  congr 1
  · apply List.map_congr_left
    intro a _
    simp [Function.comp, compactAccountEntry_data]
  · apply List.map_congr_left
    intro g _
    simp [Function.comp, compactArgEntry_data]

/-- The compact `r` array body at the character level. -/
theorem rJoin_data (t : McpTool) :
    (joinComma ((requiredKeys t).map (fun k => "\"" ++ k ++ "\""))).data =
      joinCommaL ((requiredKeyStrings t).map (fun s => '"' :: escapeChars s.data ++ ['"'])) := by
  rw [joinComma_data]
  congr 1
  simp only [requiredKeys, requiredKeyStrings, pPairs, List.map_append, List.map_map]
  congr 1
  apply List.map_congr_left
  intro a _
  simp [Function.comp, String.data_append, escape_json_data, escapeChars_append,
    (suffix_plain a).1]

/-- Goodness of the `p` entries of a tool with control-free names. -/
theorem pPairs_good (t : McpTool)
    (haccs : ∀ a ∈ t.accounts, NoControl a.name)
    (hargs : ∀ g ∈ t.args, NoControl g.name) :
    ∀ e ∈ pPairs t, NoControl e.1 ∧ NoControl e.2 := by
  intro e he
  simp only [pPairs, List.mem_append, List.mem_map] at he
  rcases he with ⟨a, ha, rfl⟩ | ⟨g, hg, rfl⟩
  · exact ⟨NoControl_append _ _ (haccs a ha) (suffix_plain a).2,
      show NoControl "pubkey" by decide⟩
  · exact ⟨hargs g hg, (compactName_plain g.arg_type).2⟩

/-- Goodness of the `r` keys of a tool with control-free names. -/
theorem requiredKeyStrings_good (t : McpTool)
    (haccs : ∀ a ∈ t.accounts, NoControl a.name)
    (hargs : ∀ g ∈ t.args, NoControl g.name) :
    ∀ s ∈ requiredKeyStrings t, NoControl s := by
  intro s hs
  simp only [requiredKeyStrings, List.mem_map] at hs
  obtain ⟨e, he, rfl⟩ := hs
  exact (pPairs_good t haccs hargs e he).1

/-! ## C3: parsing one generated tool object -/

/-- A plain (unescaped, printable) key parses as a string body. -/
theorem parseStringBody_plain (k : List Char) (hk : escapeChars k = k)
    (hg : ∀ c ∈ k, GoodChar c) (r : List Char) :
    parseStringBody (k ++ '"' :: r) = some (k, r) := by
  have h := parseStringBody_escape k hg r
  rwa [hk] at h

set_option maxHeartbeats 1000000 in
/-- A member followed by a comma: `parseMembersWith` prepends it and
continues after the comma at one fuel less. -/
theorem memberCont (pv : List Char → Option (Json × List Char)) (m : Nat)
    (k : List Char) (hk : escapeChars k = k) (hg : ∀ c ∈ k, GoodChar c)
    (vout : Json) (vin r4 : List Char)
    (hv : pv vin = some (vout, ',' :: r4)) :
    parseMembersWith pv (m + 1) ('"' :: (k ++ '"' :: ':' :: vin)) =
      (parseMembersWith pv m r4).map
        (fun p => ((String.mk k, vout) :: p.1, p.2)) := by
  simp only [parseMembersWith]
  rw [parseStringBody_plain k hk hg (':' :: vin)]
  simp only
  rw [hv]
  rfl

set_option maxHeartbeats 1000000 in
/-- The final member before the closing brace. -/
theorem memberLast (pv : List Char → Option (Json × List Char)) (m : Nat)
    (k : List Char) (hk : escapeChars k = k) (hg : ∀ c ∈ k, GoodChar c)
    (vout : Json) (vin r4 : List Char)
    (hv : pv vin = some (vout, '\x7d' :: r4)) :
    parseMembersWith pv (m + 1) ('"' :: (k ++ '"' :: ':' :: vin)) =
      some ([(String.mk k, vout)], r4) := by
  simp only [parseMembersWith]
  rw [parseStringBody_plain k hk hg (':' :: vin)]
  simp only
  rw [hv]
  rfl

/-- Single-character-key version of `memberCont`. -/
theorem memberCont1 (pv : List Char → Option (Json × List Char)) (m : Nat)
    (c : Char) (hc : escapeChars [c] = [c] ∧ GoodChar c)
    (vout : Json) (vin r4 : List Char)
    (hv : pv vin = some (vout, ',' :: r4)) :
    parseMembersWith pv (m + 1) ('"' :: c :: '"' :: ':' :: vin) =
      (parseMembersWith pv m r4).map
        (fun p => ((String.mk [c], vout) :: p.1, p.2)) :=
  memberCont pv m [c] hc.1
    (by intro x hx; rcases List.mem_singleton.mp hx with rfl; exact hc.2)
    vout vin r4 hv

/-- Single-character-key version of `memberLast`. -/
theorem memberLast1 (pv : List Char → Option (Json × List Char)) (m : Nat)
    (c : Char) (hc : escapeChars [c] = [c] ∧ GoodChar c)
    (vout : Json) (vin r4 : List Char)
    (hv : pv vin = some (vout, '\x7d' :: r4)) :
    parseMembersWith pv (m + 1) ('"' :: c :: '"' :: ':' :: vin) =
      some ([(String.mk [c], vout)], r4) :=
  memberLast pv m [c] hc.1
    (by intro x hx; rcases List.mem_singleton.mp hx with rfl; exact hc.2)
    vout vin r4 hv

/-- A tool with an account or an argument has a nonempty parameter list. -/
theorem pPairs_ne_nil (t : McpTool)
    (h : (t.accounts.isEmpty && t.args.isEmpty) = false) : pPairs t ≠ [] := by
  intro hnil
  cases ha : t.accounts with
  | cons a as => rw [pPairs, ha] at hnil; simp at hnil
  | nil =>
      cases hb : t.args with
      | cons g gs => rw [pPairs, ha, hb] at hnil; simp at hnil
      | nil => rw [ha, hb] at h; simp [List.isEmpty] at h

/-- The single-character key strings of the compact encoding. -/
theorem key_n : String.mk ['n'] = "n" := by decide

/-- The description key. -/
theorem key_i : String.mk ['i'] = "i" := by decide

/-- The discriminator key. -/
theorem key_d : String.mk ['d'] = "d" := by decide

/-- The parameters key. -/
theorem key_p : String.mk ['p'] = "p" := by decide

/-- The required-list key. -/
theorem key_r : String.mk ['r'] = "r" := by decide

/-- Character data of the literal pieces of `generate_tool_json`. -/
theorem dataLit_head : ("\x7b\"n\":\"" : String).data =
    ['\x7b', '"', 'n', '"', ':', '"'] := by decide

/-- A lone double quote. -/
theorem dataLit_q : ("\"" : String).data = ['"'] := by decide

/-- The description member prefix. -/
theorem dataLit_i : (",\"i\":\"" : String).data =
    [',', '"', 'i', '"', ':', '"'] := by decide

/-- The discriminator member prefix. -/
theorem dataLit_d : (",\"d\":\"" : String).data =
    [',', '"', 'd', '"', ':', '"'] := by decide

/-- The parameters member prefix. -/
theorem dataLit_p : ("\",\"p\":\x7b" : String).data =
    ['"', ',', '"', 'p', '"', ':', '\x7b'] := by decide

/-- The required member prefix. -/
theorem dataLit_r : ("\x7d,\"r\":[" : String).data =
    ['\x7d', ',', '"', 'r', '"', ':', '['] := by decide

/-- The closing of a tool with parameters. -/
theorem dataLit_endA : ("]\x7d" : String).data = [']', '\x7d'] := by decide

/-- The closing of a tool without parameters. -/
theorem dataLit_endB : ("\"\x7d" : String).data = ['"', '\x7d'] := by decide

set_option maxHeartbeats 4000000 in
/-- One compact-encoded tool, printed and then parsed: the client's JSON
parser returns exactly the tool's value tree. -/
theorem parseValue_tool (t : McpTool)
    (hname : NoControl t.name)
    (hdescg : ∀ d, t.description = some d → NoControl d)
    (haccs : ∀ a ∈ t.accounts, NoControl a.name)
    (hargs : ∀ g ∈ t.args, NoControl g.name)
    (m : Nat) (hm : (pPairs t).length + 5 ≤ m) (rest : List Char) :
    parseValue (m + 1) ((generate_tool_json t).data ++ rest) =
      some (toolTree t, rest) := by
  have hgp := pPairs_good t haccs hargs
  have hgr := requiredKeyStrings_good t haccs hargs
  cases hd : t.description with
  | some d =>
      have hdg : NoControl d := hdescg d hd
      cases hpe : (t.accounts.isEmpty && t.args.isEmpty) with
      | true =>
          obtain ⟨k, rfl⟩ : ∃ k, m = k + 1 + 1 + 1 := ⟨m - 3, by omega⟩
          have hdata : (generate_tool_json t).data ++ rest =
              '\x7b' :: '"' :: 'n' :: '"' :: ':' :: '"' ::
                (escapeChars t.name.data ++ '"' :: ',' ::
                 '"' :: 'i' :: '"' :: ':' :: '"' ::
                (escapeChars d.data ++ '"' :: ',' ::
                 '"' :: 'd' :: '"' :: ':' :: '"' ::
                (escapeChars (discriminator_to_hex t.discriminator).data ++
                  '"' :: '\x7d' :: rest))) := by
            rw [hexString_escape_id]
            simp [generate_tool_json, hd, hpe, escape_json_data, String.data_append,
              dataLit_head, dataLit_q, dataLit_i, dataLit_d, dataLit_endB]
          rw [hdata, parseValue_obj_quote]
          rw [memberCont1 (fun l => parseValue (k + 1 + 1 + 1) l) (k + 1 + 1) 'n'
            (by decide) _ _ _ (parseValue_str t.name hname (k + 1 + 1) _)]
          rw [memberCont1 (fun l => parseValue (k + 1 + 1 + 1) l) (k + 1) 'i'
            (by decide) _ _ _ (parseValue_str d hdg (k + 1 + 1) _)]
          rw [memberLast1 (fun l => parseValue (k + 1 + 1 + 1) l) k 'd'
            (by decide) _ _ _
            (parseValue_str (discriminator_to_hex t.discriminator)
              (hexString_NoControl _) (k + 1 + 1) _)]
          simp [toolTree, toolFields, hd, hpe, key_n, key_i, key_d]
      | false =>
          have hne_p : pPairs t ≠ [] := pPairs_ne_nil t hpe
          have hlp : 0 < (pPairs t).length := List.length_pos.mpr hne_p
          have hne_r : requiredKeyStrings t ≠ [] := by
            apply List.length_pos.mp
            simpa [requiredKeyStrings] using hlp
          obtain ⟨k, rfl⟩ : ∃ k, m = k + 1 + 1 + 1 + 1 + 1 := ⟨m - 5, by omega⟩
          have hdata : (generate_tool_json t).data ++ rest =
              '\x7b' :: '"' :: 'n' :: '"' :: ':' :: '"' ::
                (escapeChars t.name.data ++ '"' :: ',' ::
                 '"' :: 'i' :: '"' :: ':' :: '"' ::
                (escapeChars d.data ++ '"' :: ',' ::
                 '"' :: 'd' :: '"' :: ':' :: '"' ::
                (escapeChars (discriminator_to_hex t.discriminator).data ++
                  '"' :: ',' ::
                 '"' :: 'p' :: '"' :: ':' :: '\x7b' ::
                (joinCommaL ((pPairs t).map (fun e => printedStrMember e.1 e.2)) ++
                  '\x7d' :: ',' ::
                 '"' :: 'r' :: '"' :: ':' :: '[' ::
                (joinCommaL ((requiredKeyStrings t).map
                    (fun s => '"' :: escapeChars s.data ++ ['"'])) ++
                  ']' :: '\x7d' :: rest))))) := by
            rw [hexString_escape_id, ← pJoin_data, ← rJoin_data]
            simp [generate_tool_json, hd, hpe, escape_json_data, String.data_append,
              dataLit_head, dataLit_q, dataLit_i, dataLit_d, dataLit_p, dataLit_r,
              dataLit_endA]
          rw [hdata, parseValue_obj_quote]
          rw [memberCont1 (fun l => parseValue (k + 1 + 1 + 1 + 1 + 1) l)
            (k + 1 + 1 + 1 + 1) 'n' (by decide) _ _ _
            (parseValue_str t.name hname (k + 1 + 1 + 1 + 1) _)]
          rw [memberCont1 (fun l => parseValue (k + 1 + 1 + 1 + 1 + 1) l)
            (k + 1 + 1 + 1) 'i' (by decide) _ _ _
            (parseValue_str d hdg (k + 1 + 1 + 1 + 1) _)]
          rw [memberCont1 (fun l => parseValue (k + 1 + 1 + 1 + 1 + 1) l)
            (k + 1 + 1) 'd' (by decide) _ _ _
            (parseValue_str (discriminator_to_hex t.discriminator)
              (hexString_NoControl _) (k + 1 + 1 + 1 + 1) _)]
          rw [memberCont1 (fun l => parseValue (k + 1 + 1 + 1 + 1 + 1) l)
            (k + 1) 'p' (by decide) _ _ _
            (parseValue_strobj (pPairs t) hne_p hgp (k + 1 + 1 + 1 + 1)
              (by omega) _)]
          rw [memberLast1 (fun l => parseValue (k + 1 + 1 + 1 + 1 + 1) l)
            k 'r' (by decide) _ _ _
            (parseValue_strarr (requiredKeyStrings t) hne_r hgr (k + 1 + 1 + 1 + 1)
              (by simp [requiredKeyStrings]; omega) _)]
          simp [toolTree, toolFields, hd, hpe, key_n, key_i, key_d, key_p, key_r]
  | none =>
      cases hpe : (t.accounts.isEmpty && t.args.isEmpty) with
      | true =>
          obtain ⟨k, rfl⟩ : ∃ k, m = k + 1 + 1 := ⟨m - 2, by omega⟩
          have hdata : (generate_tool_json t).data ++ rest =
              '\x7b' :: '"' :: 'n' :: '"' :: ':' :: '"' ::
                (escapeChars t.name.data ++ '"' :: ',' ::
                 '"' :: 'd' :: '"' :: ':' :: '"' ::
                (escapeChars (discriminator_to_hex t.discriminator).data ++
                  '"' :: '\x7d' :: rest)) := by
            rw [hexString_escape_id]
            simp [generate_tool_json, hd, hpe, escape_json_data, String.data_append,
              dataLit_head, dataLit_q, dataLit_d, dataLit_endB]
          rw [hdata, parseValue_obj_quote]
          rw [memberCont1 (fun l => parseValue (k + 1 + 1) l) (k + 1) 'n'
            (by decide) _ _ _ (parseValue_str t.name hname (k + 1) _)]
          rw [memberLast1 (fun l => parseValue (k + 1 + 1) l) k 'd'
            (by decide) _ _ _
            (parseValue_str (discriminator_to_hex t.discriminator)
              (hexString_NoControl _) (k + 1) _)]
          simp [toolTree, toolFields, hd, hpe, key_n, key_d]
      | false =>
          have hne_p : pPairs t ≠ [] := pPairs_ne_nil t hpe
          have hlp : 0 < (pPairs t).length := List.length_pos.mpr hne_p
          have hne_r : requiredKeyStrings t ≠ [] := by
            apply List.length_pos.mp
            simpa [requiredKeyStrings] using hlp
          obtain ⟨k, rfl⟩ : ∃ k, m = k + 1 + 1 + 1 + 1 := ⟨m - 4, by omega⟩
          have hdata : (generate_tool_json t).data ++ rest =
              '\x7b' :: '"' :: 'n' :: '"' :: ':' :: '"' ::
                (escapeChars t.name.data ++ '"' :: ',' ::
                 '"' :: 'd' :: '"' :: ':' :: '"' ::
                (escapeChars (discriminator_to_hex t.discriminator).data ++
                  '"' :: ',' ::
                 '"' :: 'p' :: '"' :: ':' :: '\x7b' ::
                (joinCommaL ((pPairs t).map (fun e => printedStrMember e.1 e.2)) ++
                  '\x7d' :: ',' ::
                 '"' :: 'r' :: '"' :: ':' :: '[' ::
                (joinCommaL ((requiredKeyStrings t).map
                    (fun s => '"' :: escapeChars s.data ++ ['"'])) ++
                  ']' :: '\x7d' :: rest)))) := by
            rw [hexString_escape_id, ← pJoin_data, ← rJoin_data]
            simp [generate_tool_json, hd, hpe, escape_json_data, String.data_append,
              dataLit_head, dataLit_q, dataLit_d, dataLit_p, dataLit_r, dataLit_endA]
          rw [hdata, parseValue_obj_quote]
          rw [memberCont1 (fun l => parseValue (k + 1 + 1 + 1 + 1) l)
            (k + 1 + 1 + 1) 'n' (by decide) _ _ _
            (parseValue_str t.name hname (k + 1 + 1 + 1) _)]
          rw [memberCont1 (fun l => parseValue (k + 1 + 1 + 1 + 1) l)
            (k + 1 + 1) 'd' (by decide) _ _ _
            (parseValue_str (discriminator_to_hex t.discriminator)
              (hexString_NoControl _) (k + 1 + 1 + 1) _)]
          rw [memberCont1 (fun l => parseValue (k + 1 + 1 + 1 + 1) l)
            (k + 1) 'p' (by decide) _ _ _
            (parseValue_strobj (pPairs t) hne_p hgp (k + 1 + 1 + 1)
              (by omega) _)]
          rw [memberLast1 (fun l => parseValue (k + 1 + 1 + 1 + 1) l)
            k 'r' (by decide) _ _ _
            (parseValue_strarr (requiredKeyStrings t) hne_r hgr (k + 1 + 1 + 1)
              (by simp [requiredKeyStrings]; omega) _)]
          simp [toolTree, toolFields, hd, hpe, key_n, key_d, key_p, key_r]

/-! ## C3: parsing the whole compact document -/

/-- Every printed tool object starts with an opening brace. -/
theorem generate_tool_json_head (t : McpTool) :
    ∃ tail, (generate_tool_json t).data = '\x7b' :: tail :=
  ⟨((generate_tool_json t).data).tail, rfl⟩

/-- A member of a comma join is no longer than the join. -/
theorem mem_joinCommaL_le : ∀ (l : List (List Char)) (x : List Char),
    x ∈ l → x.length ≤ (joinCommaL l).length
  | [], x, hx => absurd hx (List.not_mem_nil x)
  | [y], x, hx => by
      rcases List.mem_singleton.mp hx with rfl
      rw [show joinCommaL [x] = x from rfl]
  | y :: y2 :: tl, x, hx => by
      rw [show joinCommaL (y :: y2 :: tl) = y ++ ',' :: joinCommaL (y2 :: tl) from rfl]
      simp only [List.length_append, List.length_cons]
      rcases List.mem_cons.mp hx with rfl | hx2
      · omega
      · have := mem_joinCommaL_le (y2 :: tl) x hx2
        omega

/-- A comma join of nonempty pieces is at least as long as the piece count. -/
theorem ones_le_joinCommaL : ∀ (l : List (List Char)),
    (∀ x ∈ l, 1 ≤ x.length) → l.length ≤ (joinCommaL l).length
  | [], _ => by simp [joinCommaL]
  | [y], h => by
      have := h y (List.mem_singleton.mpr rfl)
      rw [show joinCommaL [y] = y from rfl]
      simpa using this
  | y :: y2 :: tl, h => by
      have hih := ones_le_joinCommaL (y2 :: tl)
        (fun x hx => h x (List.mem_cons_of_mem y hx))
      rw [show joinCommaL (y :: y2 :: tl) = y ++ ',' :: joinCommaL (y2 :: tl) from rfl]
      simp only [List.length_append, List.length_cons] at hih ⊢
      omega

/-- A tool's parameter count is bounded by its printed length. -/
theorem pPairs_le_gtj_len (t : McpTool) :
    (pPairs t).length ≤ (generate_tool_json t).data.length := by
  cases hpe : (t.accounts.isEmpty && t.args.isEmpty) with
  | true =>
      cases ha : t.accounts with
      | cons a as => rw [ha] at hpe; simp [List.isEmpty] at hpe
      | nil =>
          cases hb : t.args with
          | cons g gs => rw [ha, hb] at hpe; simp [List.isEmpty] at hpe
          | nil => simp [pPairs, ha, hb]
  | false =>
      have hjp : (pPairs t).length ≤
          (joinComma (t.accounts.map compactAccountEntry ++
            t.args.map compactArgEntry)).data.length := by
        rw [pJoin_data]
        have h1 : ∀ x ∈ (pPairs t).map (fun e => printedStrMember e.1 e.2),
            1 ≤ x.length := by
          intro x hx
          obtain ⟨e, _, rfl⟩ := List.mem_map.mp hx
          simp [printedStrMember]
        have h2 := ones_le_joinCommaL _ h1
        simpa using h2
      have hsub : (joinComma (t.accounts.map compactAccountEntry ++
            t.args.map compactArgEntry)).data.length ≤
          (generate_tool_json t).data.length := by
        cases hd : t.description with
        | some d =>
            simp [generate_tool_json, hd, hpe, String.data_append, List.length_append]
            omega
        | none =>
            simp [generate_tool_json, hd, hpe, String.data_append, List.length_append]
            omega
      omega

/-- A nonempty run of printed tools parses element-wise, for any value parser
that parses each tool. -/
theorem parseElemsWith_tools
    (pv : List Char → Option (Json × List Char)) :
    ∀ (ts : List McpTool), ts ≠ [] →
      (∀ t ∈ ts, ∀ r : List Char,
        pv ((generate_tool_json t).data ++ r) = some (toolTree t, r)) →
      ∀ (n : Nat), ts.length ≤ n → ∀ rest : List Char,
        parseElemsWith pv n
          (joinCommaL (ts.map (fun t => (generate_tool_json t).data)) ++ ']' :: rest) =
          some (ts.map toolTree, rest)
  | [], hne, _, _, _, _ => absurd rfl hne
  | [t], _, hpv, n, hn, rest => by
      obtain ⟨n1, rfl⟩ : ∃ n1, n = n1 + 1 := ⟨n - 1, by simp at hn; omega⟩
      have hshape : joinCommaL ([t].map (fun t => (generate_tool_json t).data)) ++ ']' :: rest
          = (generate_tool_json t).data ++ ']' :: rest := by
        simp [joinCommaL]
      rw [hshape]
      simp only [parseElemsWith]
      rw [hpv t (by simp) (']' :: rest)]
      simp
  | t :: t2 :: tl, _, hpv, n, hn, rest => by
      obtain ⟨n1, rfl⟩ : ∃ n1, n = n1 + 1 := ⟨n - 1, by simp at hn; omega⟩
      have hn1 : (t2 :: tl).length ≤ n1 := by simp at hn ⊢; omega
      have hih := parseElemsWith_tools pv (t2 :: tl) (by simp)
        (fun x hx r => hpv x (by simp at hx ⊢; tauto) r) n1 hn1 rest
      have hshape : joinCommaL ((t :: t2 :: tl).map (fun t => (generate_tool_json t).data))
            ++ ']' :: rest
          = (generate_tool_json t).data ++ ',' ::
              (joinCommaL ((t2 :: tl).map (fun t => (generate_tool_json t).data))
                ++ ']' :: rest) := by
        simp [joinCommaL]
      rw [hshape]
      simp only [parseElemsWith]
      rw [hpv t (by simp)
        (',' :: (joinCommaL ((t2 :: tl).map (fun t => (generate_tool_json t).data))
          ++ ']' :: rest))]
      simp only [hih, Option.map_some]
      simp

set_option maxHeartbeats 1000000 in
/-- A printed nonempty tool array parses as the array of tool trees. -/
theorem parseValue_toolarr (ts : List McpTool) (hne : ts ≠ [])
    (n : Nat) (hn : ts.length ≤ n)
    (htool : ∀ t ∈ ts, ∀ r : List Char,
      parseValue n ((generate_tool_json t).data ++ r) = some (toolTree t, r))
    (rest : List Char) :
    parseValue (n + 1)
      ('[' :: (joinCommaL (ts.map (fun t => (generate_tool_json t).data)) ++
        ']' :: rest)) =
      some (Json.arr (ts.map toolTree), rest) := by
  obtain ⟨t0, tl, rfl⟩ : ∃ t0 tl, ts = t0 :: tl := by
    cases ts with
    | nil => exact absurd rfl hne
    | cons a l => exact ⟨a, l, rfl⟩
  obtain ⟨tail0, htail⟩ := generate_tool_json_head t0
  obtain ⟨Z, hZ⟩ : ∃ Z,
      joinCommaL ((t0 :: tl).map (fun t => (generate_tool_json t).data)) ++ ']' :: rest =
        (generate_tool_json t0).data ++ Z := by
    cases tl with
    | nil => exact ⟨']' :: rest, by simp [joinCommaL]⟩
    | cons t1 tl2 =>
        exact ⟨',' :: (joinCommaL ((t1 :: tl2).map (fun t => (generate_tool_json t).data))
          ++ ']' :: rest), by simp [joinCommaL]⟩
  rw [hZ, htail]
  rw [show (('\x7b' :: tail0) ++ Z : List Char) = '\x7b' :: (tail0 ++ Z) from rfl]
  rw [parseValue_arr_obj]
  rw [show ('\x7b' :: (tail0 ++ Z) : List Char) = ('\x7b' :: tail0) ++ Z from rfl]
  rw [← htail, ← hZ]
  rw [parseElemsWith_tools (fun l => parseValue n l) (t0 :: tl) hne
    (fun t ht r => htool t ht r) n hn rest]
  rfl

/-- The protocol version key. -/
theorem key_v : String.mk ['v'] = "v" := by decide

/-- The schema-name key. -/
theorem key_name : String.mk ['n', 'a', 'm', 'e'] = "name" := by decide

/-- The tools key. -/
theorem key_tools : String.mk ['t', 'o', 'o', 'l', 's'] = "tools" := by decide

/-- The document head literal. -/
theorem dataLit_docHead : ("\x7b\"v\":\"" : String).data =
    ['\x7b', '"', 'v', '"', ':', '"'] := by decide

/-- The schema-name member prefix. -/
theorem dataLit_docName : ("\",\"name\":\"" : String).data =
    ['"', ',', '"', 'n', 'a', 'm', 'e', '"', ':', '"'] := by decide

/-- The tools member prefix. -/
theorem dataLit_docTools : ("\",\"tools\":[" : String).data =
    ['"', ',', '"', 't', 'o', 'o', 'l', 's', '"', ':', '['] := by decide

/-- The empty join prints nothing. -/
theorem joinComma_nil : joinComma ([] : List String) = "" := rfl

/-- The empty string has no characters. -/
theorem dataLit_empty : ("" : String).data = [] := by decide

/-- The protocol version string needs no escaping and has no control
characters. -/
theorem pv_plain : escapeChars PROTOCOL_VERSION.data = PROTOCOL_VERSION.data ∧
    NoControl PROTOCOL_VERSION := by
  constructor <;> decide

set_option maxHeartbeats 4000000 in
/-- The compact document, printed and parsed with serde fuel: the full
schema tree comes back. -/
theorem jsonParse_compact (schema : McpSchema)
    (hname : NoControl schema.name)
    (hts : ∀ t ∈ schema.tools, NoControl t.name ∧
      (∀ d, t.description = some d → NoControl d) ∧
      (∀ a ∈ t.accounts, NoControl a.name) ∧
      (∀ g ∈ t.args, NoControl g.name)) :
    jsonParse (generate_compact_schema schema) = some (schemaTree schema) := by
  have hL29 : (joinComma (schema.tools.map generate_tool_json)).data.length + 29 ≤
      (generate_compact_schema schema).data.length := by
    simp [generate_compact_schema, String.data_append, List.length_append,
      dataLit_docHead, dataLit_docName, dataLit_docTools, dataLit_endA]
    omega
  have hparse : parseValue ((generate_compact_schema schema).data.length + 1)
      (generate_compact_schema schema).data = some (schemaTree schema, []) := by
    obtain ⟨l0, hE⟩ : ∃ l0,
        (generate_compact_schema schema).data.length = l0 + 1 + 1 + 1 :=
      ⟨(generate_compact_schema schema).data.length - 3, by omega⟩
    rw [hE]
    rcases eq_or_ne schema.tools [] with hnil | hne
    · have hdata : (generate_compact_schema schema).data =
          '\x7b' :: '"' :: 'v' :: '"' :: ':' ::
            ('"' :: (escapeChars PROTOCOL_VERSION.data ++ '"' :: ',' ::
              '"' :: (['n', 'a', 'm', 'e'] ++ '"' :: ':' ::
                ('"' :: (escapeChars schema.name.data ++ '"' :: ',' ::
                  '"' :: (['t', 'o', 'o', 'l', 's'] ++ '"' :: ':' ::
                    ('[' :: ']' :: '\x7d' :: []))))))) := by
        simp [generate_compact_schema, hnil, joinComma_nil, dataLit_empty,
          String.data_append, escape_json_data, dataLit_docHead, dataLit_docName,
          dataLit_docTools, dataLit_endA, pv_plain.1]
      rw [hdata, parseValue_obj_quote]
      rw [memberCont1 (fun l => parseValue (l0 + 1 + 1 + 1) l) (l0 + 1 + 1) 'v'
        (by decide) _ _ _ (parseValue_str PROTOCOL_VERSION pv_plain.2 (l0 + 1 + 1) _)]
      rw [memberCont (fun l => parseValue (l0 + 1 + 1 + 1) l) (l0 + 1)
        ['n', 'a', 'm', 'e'] (by decide) (by decide) _ _ _
        (parseValue_str schema.name hname (l0 + 1 + 1) _)]
      rw [memberLast (fun l => parseValue (l0 + 1 + 1 + 1) l) l0
        ['t', 'o', 'o', 'l', 's'] (by decide) (by decide) _ _ _
        (parseValue_arr_empty (l0 + 1 + 1) ('\x7d' :: []))]
      simp [schemaTree, hnil, key_v, key_name, key_tools]
    · have htool : ∀ t ∈ schema.tools, ∀ r : List Char,
          parseValue (l0 + 1 + 1) ((generate_tool_json t).data ++ r) =
            some (toolTree t, r) := by
        intro t ht r
        obtain ⟨h1, h2, h3, h4⟩ := hts t ht
        have hgt := pPairs_le_gtj_len t
        have hmem : (generate_tool_json t).data.length ≤
            (joinComma (schema.tools.map generate_tool_json)).data.length := by
          rw [joinComma_data]
          exact mem_joinCommaL_le _ _
            (List.mem_map.mpr ⟨generate_tool_json t,
              List.mem_map.mpr ⟨t, ht, rfl⟩, rfl⟩)
        have hpp : (pPairs t).length + 5 ≤ l0 + 1 := by omega
        exact parseValue_tool t h1 h2 h3 h4 (l0 + 1) hpp r
      have hcnt : schema.tools.length ≤ l0 + 1 + 1 := by
        have hone : ∀ x ∈ (schema.tools.map generate_tool_json).map String.data,
            1 ≤ x.length := by
          intro x hx
          obtain ⟨s, hs, rfl⟩ := List.mem_map.mp hx
          obtain ⟨t, _, rfl⟩ := List.mem_map.mp hs
          obtain ⟨tail, htail⟩ := generate_tool_json_head t
          rw [htail]
          simp
        have h2 := ones_le_joinCommaL _ hone
        have h3 : schema.tools.length ≤
            (joinComma (schema.tools.map generate_tool_json)).data.length := by
          rw [joinComma_data]
          simpa using h2
        omega
      have hv_tools := parseValue_toolarr schema.tools hne (l0 + 1 + 1) hcnt htool
        ('\x7d' :: [])
      have hdata : (generate_compact_schema schema).data =
          '\x7b' :: '"' :: 'v' :: '"' :: ':' ::
            ('"' :: (escapeChars PROTOCOL_VERSION.data ++ '"' :: ',' ::
              '"' :: (['n', 'a', 'm', 'e'] ++ '"' :: ':' ::
                ('"' :: (escapeChars schema.name.data ++ '"' :: ',' ::
                  '"' :: (['t', 'o', 'o', 'l', 's'] ++ '"' :: ':' ::
                    ('[' :: (joinCommaL (schema.tools.map
                        (fun t => (generate_tool_json t).data)) ++
                      ']' :: '\x7d' :: [])))))))) := by
        simp [generate_compact_schema, String.data_append, escape_json_data,
          joinComma_data, List.map_map, Function.comp_def, dataLit_docHead,
          dataLit_docName, dataLit_docTools, dataLit_endA, pv_plain.1]
      rw [hdata, parseValue_obj_quote]
      rw [memberCont1 (fun l => parseValue (l0 + 1 + 1 + 1) l) (l0 + 1 + 1) 'v'
        (by decide) _ _ _ (parseValue_str PROTOCOL_VERSION pv_plain.2 (l0 + 1 + 1) _)]
      rw [memberCont (fun l => parseValue (l0 + 1 + 1 + 1) l) (l0 + 1)
        ['n', 'a', 'm', 'e'] (by decide) (by decide) _ _ _
        (parseValue_str schema.name hname (l0 + 1 + 1) _)]
      rw [memberLast (fun l => parseValue (l0 + 1 + 1 + 1) l) l0
        ['t', 'o', 'o', 'l', 's'] (by decide) (by decide) _ _ _ hv_tools]
      simp [schemaTree, key_v, key_name, key_tools]
  simp only [jsonParse]
  rw [hparse]

/-! ## C3: the deserializer side -/

/-- A JSON array of strings deserializes to the string list. -/
theorem stringList_map : ∀ l : List String, stringList (l.map Json.str) = some l
  | [] => rfl
  | s :: tl => by
      rw [List.map_cons]
      rw [show stringList (Json.str s :: tl.map Json.str) =
        (stringList (tl.map Json.str)).map (fun l2 => s :: l2) from rfl]
      rw [stringList_map tl]
      rfl

/-- Both empty means no parameter pairs. -/
theorem pPairs_nil_of_empty (t : McpTool)
    (h : (t.accounts.isEmpty && t.args.isEmpty) = true) : pPairs t = [] := by
  cases ha : t.accounts with
  | cons a as => rw [ha] at h; simp [List.isEmpty] at h
  | nil =>
      cases hb : t.args with
      | cons g gs => rw [ha, hb] at h; simp [List.isEmpty] at h
      | nil => simp [pPairs, ha, hb]

set_option maxHeartbeats 1000000 in
/-- serde's `ParsedTool` deserializer recovers the expected tool from the
tool's value tree. -/
theorem parsedToolOfJson_toolTree (t : McpTool) :
    parsedToolOfJson (toolTree t) = some (expectedTool t) := by
  cases hd : t.description with
  | some d =>
      cases hpe : (t.accounts.isEmpty && t.args.isEmpty) with
      | true =>
          have hf : toolFields t = [("n", Json.str t.name), ("i", Json.str d),
              ("d", Json.str (discriminator_to_hex t.discriminator))] := by
            simp [toolFields, hd, hpe]
          rw [show toolTree t = Json.obj (toolFields t) from rfl, hf]
          rw [show parsedToolOfJson (Json.obj [("n", Json.str t.name),
              ("i", Json.str d),
              ("d", Json.str (discriminator_to_hex t.discriminator))]) =
            some (ParsedTool.mk t.name (some d)
              (discriminator_to_hex t.discriminator) [] []) from rfl]
          simp [expectedTool, hd, hpe, pPairs_nil_of_empty t hpe, buildMap]
      | false =>
          have hf : toolFields t = [("n", Json.str t.name), ("i", Json.str d),
              ("d", Json.str (discriminator_to_hex t.discriminator)),
              ("p", Json.obj ((pPairs t).map (fun e => (e.1, Json.str e.2)))),
              ("r", Json.arr ((requiredKeyStrings t).map Json.str))] := by
            simp [toolFields, hd, hpe]
          rw [show toolTree t = Json.obj (toolFields t) from rfl, hf]
          rw [show parsedToolOfJson (Json.obj [("n", Json.str t.name),
              ("i", Json.str d),
              ("d", Json.str (discriminator_to_hex t.discriminator)),
              ("p", Json.obj ((pPairs t).map (fun e => (e.1, Json.str e.2)))),
              ("r", Json.arr ((requiredKeyStrings t).map Json.str))]) =
            (stringList ((requiredKeyStrings t).map Json.str)).map
              (fun req => ParsedTool.mk t.name (some d)
                (discriminator_to_hex t.discriminator)
                (buildMap ((pPairs t).map (fun e => (e.1, Json.str e.2)))) req)
            from rfl]
          rw [stringList_map]
          simp [expectedTool, hd, hpe]
  | none =>
      cases hpe : (t.accounts.isEmpty && t.args.isEmpty) with
      | true =>
          have hf : toolFields t = [("n", Json.str t.name),
              ("d", Json.str (discriminator_to_hex t.discriminator))] := by
            simp [toolFields, hd, hpe]
          rw [show toolTree t = Json.obj (toolFields t) from rfl, hf]
          rw [show parsedToolOfJson (Json.obj [("n", Json.str t.name),
              ("d", Json.str (discriminator_to_hex t.discriminator))]) =
            some (ParsedTool.mk t.name none
              (discriminator_to_hex t.discriminator) [] []) from rfl]
          simp [expectedTool, hd, hpe, pPairs_nil_of_empty t hpe, buildMap]
      | false =>
          have hf : toolFields t = [("n", Json.str t.name),
              ("d", Json.str (discriminator_to_hex t.discriminator)),
              ("p", Json.obj ((pPairs t).map (fun e => (e.1, Json.str e.2)))),
              ("r", Json.arr ((requiredKeyStrings t).map Json.str))] := by
            simp [toolFields, hd, hpe]
          rw [show toolTree t = Json.obj (toolFields t) from rfl, hf]
          rw [show parsedToolOfJson (Json.obj [("n", Json.str t.name),
              ("d", Json.str (discriminator_to_hex t.discriminator)),
              ("p", Json.obj ((pPairs t).map (fun e => (e.1, Json.str e.2)))),
              ("r", Json.arr ((requiredKeyStrings t).map Json.str))]) =
            (stringList ((requiredKeyStrings t).map Json.str)).map
              (fun req => ParsedTool.mk t.name none
                (discriminator_to_hex t.discriminator)
                (buildMap ((pPairs t).map (fun e => (e.1, Json.str e.2)))) req)
            from rfl]
          rw [stringList_map]
          simp [expectedTool, hd, hpe]

/-- The `tools` array deserializes element-wise. -/
theorem toolList_map : ∀ ts : List McpTool,
    toolList (ts.map toolTree) = some (ts.map expectedTool)
  | [] => rfl
  | t :: tl => by
      rw [List.map_cons, List.map_cons]
      rw [show toolList (toolTree t :: tl.map toolTree) =
        (match parsedToolOfJson (toolTree t) with
         | some t2 => (toolList (tl.map toolTree)).map (fun l => t2 :: l)
         | none => none) from rfl]
      rw [parsedToolOfJson_toolTree t, toolList_map tl]
      rfl

/-- serde's `ParsedSchema` deserializer recovers the expected schema from the
document tree. -/
theorem parsedSchemaOfJson_schemaTree (schema : McpSchema) :
    parsedSchemaOfJson (schemaTree schema) = some (expectedSchema schema) := by
  rw [show parsedSchemaOfJson (schemaTree schema) =
    (toolList (schema.tools.map toolTree)).bind (fun tools =>
      some (ParsedSchema.mk PROTOCOL_VERSION schema.name tools none)) from rfl]
  rw [toolList_map]
  rfl

/-- Printing a good schema compactly and decoding it yields the expected
parsed schema. -/
theorem decodeSchema_compact (schema : McpSchema)
    (hname : NoControl schema.name)
    (hts : ∀ t ∈ schema.tools, NoControl t.name ∧
      (∀ d, t.description = some d → NoControl d) ∧
      (∀ a ∈ t.accounts, NoControl a.name) ∧
      (∀ g ∈ t.args, NoControl g.name)) :
    decodeSchema (generate_compact_schema schema) = some (expectedSchema schema) := by
  unfold decodeSchema
  rw [jsonParse_compact schema hname hts, Option.some_bind]
  exact parsedSchemaOfJson_schemaTree schema

/-! ## C3: the discriminator hex round-trip -/

/-- Hex characters of in-range nibbles: digit value, not a plus sign,
ASCII. -/
theorem hexCharVal (m : Nat) (hm : m < 16) :
    hexDigitVal (hexChar m).toNat = some m ∧ (hexChar m).toNat ≠ 43 ∧
      (hexChar m).toNat < 128 := by
  interval_cases m <;> exact ⟨by decide, by decide, by decide⟩

/-- `u8::from_str_radix` inverts the two-nibble printing of a byte. -/
theorem chunk_hex (b : Nat) (hb : b < 256) :
    fromStrRadix16Chunk [(hexChar (b >>> 4)).toNat, (hexChar (b &&& 0x0f)).toNat] =
      some b := by
  have hhi : b >>> 4 < 16 := by
    rw [Nat.shiftRight_eq_div_pow b 4]
    omega
  have hlo : b &&& 0x0f < 16 := by
    rw [Nat.and_pow_two_sub_one_eq_mod b 4]
    omega
  rw [show fromStrRadix16Chunk
      [(hexChar (b >>> 4)).toNat, (hexChar (b &&& 0x0f)).toNat] =
    (if (hexChar (b >>> 4)).toNat = 43 then hexDigitVal (hexChar (b &&& 0x0f)).toNat
     else
       match hexDigitVal (hexChar (b >>> 4)).toNat,
           hexDigitVal (hexChar (b &&& 0x0f)).toNat with
       | some hi, some lo => some (hi * 16 + lo)
       | _, _ => none) from rfl]
  rw [if_neg (hexCharVal _ hhi).2.1]
  rw [(hexCharVal _ hhi).1, (hexCharVal _ hlo).1]
  rw [show (match some (b >>> 4), some (b &&& 0x0f) with
      | some hi, some lo => some (hi * 16 + lo)
      | _, _ => none) = some ((b >>> 4) * 16 + (b &&& 0x0f)) from rfl]
  have hdiv : b >>> 4 = b / 16 := Nat.shiftRight_eq_div_pow b 4
  have hmod : b &&& 0x0f = b % 16 := Nat.and_pow_two_sub_one_eq_mod b 4
  rw [hdiv, hmod]
  congr 1
  omega

/-- The spec-level chunk decoder inverts the hex printing of a byte list. -/
theorem specHexValue?_hexChars : ∀ (d : List Nat), (∀ b ∈ d, b < 256) →
    specHexValue? (d.flatMap (fun b => [hexChar (b >>> 4), hexChar (b &&& 0x0f)])) =
      some d
  | [], _ => rfl
  | b :: tl, h => by
      have hb := h b (by simp)
      have ih := specHexValue?_hexChars tl (fun x hx => h x (by simp [hx]))
      rw [List.flatMap_cons]
      rw [show ([hexChar (b >>> 4), hexChar (b &&& 0x0f)] ++
          tl.flatMap (fun b => [hexChar (b >>> 4), hexChar (b &&& 0x0f)]) : List Char) =
        hexChar (b >>> 4) :: hexChar (b &&& 0x0f) ::
          tl.flatMap (fun b => [hexChar (b >>> 4), hexChar (b &&& 0x0f)]) from rfl]
      rw [show specHexValue? (hexChar (b >>> 4) :: hexChar (b &&& 0x0f) ::
          tl.flatMap (fun b => [hexChar (b >>> 4), hexChar (b &&& 0x0f)])) =
        (match fromStrRadix16Chunk [(hexChar (b >>> 4)).toNat, (hexChar (b &&& 0x0f)).toNat],
            specHexValue? (tl.flatMap (fun b => [hexChar (b >>> 4), hexChar (b &&& 0x0f)])) with
         | some b2, some bs => some (b2 :: bs)
         | _, _ => none) from rfl]
      rw [chunk_hex b hb, ih]

/-- The client's `hex::decode` inverts `discriminator_to_hex` on byte
lists. -/
theorem hexDecode_to_hex (d : List Nat) (hd : ∀ b ∈ d, b < 256) :
    hexDecode (discriminator_to_hex d) = HexOutcome.ok d := by
  have hch : ∀ c ∈ (discriminator_to_hex d).data, c.toNat < 128 := by
    intro c hc
    simp only [discriminator_to_hex] at hc
    obtain ⟨b, hbm, hcb⟩ := List.mem_flatMap.mp hc
    have hb := hd b hbm
    have hhi : b >>> 4 < 16 := by
      rw [Nat.shiftRight_eq_div_pow b 4]; omega
    have hlo : b &&& 0x0f < 16 := by
      rw [Nat.and_pow_two_sub_one_eq_mod b 4]; omega
    simp only [List.mem_cons, List.mem_singleton, List.not_mem_nil, or_false] at hcb
    rcases hcb with h | h
    · rw [h]; exact (hexCharVal _ hhi).2.2
    · rw [h]; exact (hexCharVal _ hlo).2.2
  have hbytes : utf8Encode (discriminator_to_hex d) =
      (discriminator_to_hex d).data.map Char.toNat :=
    ascii_flatMap_utf8 _ hch
  have hdata : (discriminator_to_hex d).data =
      d.flatMap (fun b => [hexChar (b >>> 4), hexChar (b &&& 0x0f)]) := rfl
  have hlen : (discriminator_to_hex d).data.length = 2 * d.length := by
    rw [hdata]
    exact flatMap_pair_length d _ _
  have hb128 : ∀ b ∈ utf8Encode (discriminator_to_hex d), b < 128 := by
    intro b hb
    rw [hbytes] at hb
    obtain ⟨c, hc, rfl⟩ := List.mem_map.mp hb
    exact hch c hc
  unfold hexDecode
  rw [hbytes]
  rw [if_neg (by simp [hlen, Nat.mul_mod_right])]
  rw [hexDecodeGo_ascii ((discriminator_to_hex d).data.map Char.toNat)
    (by rw [← hbytes]; exact hb128) (discriminator_to_hex d).data 0 _ []
    (by simp) (by simp) (by simp [hlen, Nat.mul_mod_right]) (by simp)]
  rw [hdata, specHexValue?_hexChars d hd]
  rfl

/-- SHA-256 digests are byte lists. -/
theorem sha256_lt256 (msg : List Nat) : ∀ b ∈ sha256 msg, b < 256 := by
  intro b hb
  unfold sha256 at hb
  obtain ⟨w, _, hbw⟩ := List.mem_flatMap.mp hb
  simp only [be32, List.mem_cons, List.mem_singleton, List.not_mem_nil, or_false] at hbw
  rcases hbw with h | h | h | h <;> omega

/-- Instruction discriminators are 8 in-range bytes. -/
theorem instruction_discriminator_lt256 (name : String) :
    ∀ b ∈ instruction_discriminator name, b < 256 := by
  intro b hb
  unfold instruction_discriminator hash_to_discriminator at hb
  exact sha256_lt256 _ b (List.mem_of_mem_take hb)

/-- With an in-range 8-byte discriminator, the parsed tool's
`discriminator_bytes` recovers it exactly. -/
theorem discBytes_expected (t : McpTool) (hlen : t.discriminator.length = 8)
    (hlt : ∀ b ∈ t.discriminator, b < 256) :
    (expectedTool t).discriminator_bytes = DiscResult.ok t.discriminator := by
  unfold ParsedTool.discriminator_bytes
  rw [show (expectedTool t).discriminator = discriminator_to_hex t.discriminator
    from rfl]
  rw [hexDecode_to_hex t.discriminator hlt]
  simp [hlen, List.take_of_length_le]

/-- The parsed tool's `required_params` is the compact `r` list. -/
theorem required_params_expected (t : McpTool) :
    (expectedTool t).required_params = requiredKeyStrings t := by
  unfold ParsedTool.required_params
  cases hpe : (t.accounts.isEmpty && t.args.isEmpty) with
  | true =>
      have hpn := pPairs_nil_of_empty t hpe
      simp [expectedTool, hpe, requiredKeyStrings, hpn, buildMap]
  | false =>
      obtain ⟨e, tl, hcons⟩ : ∃ e tl, pPairs t = e :: tl := by
        rcases hpp : pPairs t with _ | ⟨e, tl⟩
        · exact absurd hpp (pPairs_ne_nil t hpe)
        · exact ⟨e, tl, rfl⟩
      simp [expectedTool, hpe, requiredKeyStrings, hcons]

/-- The compact `r` list in source terms: suffixed account names, then
argument names. -/
theorem requiredKeyStrings_eq (t : McpTool) :
    requiredKeyStrings t =
      t.accounts.map (fun a => a.name ++ a.suffix) ++
      t.args.map (fun g => g.name) := by
  simp [requiredKeyStrings, pPairs, List.map_append, List.map_map, Function.comp_def]

/-! ## C3: the claim -/

set_option maxHeartbeats 1000000 in
/-- C3: for a builder-built schema whose strings carry no raw control
characters, compact-encoding with `generate_compact_schema` and decoding
with the client parser yields the same tool names, discriminators decoded
back to the original 8 bytes, and required-parameter lists equal to the
suffixed account names followed by the argument names. (Corrected from the
unconditional claim: a built schema whose tool name contains a control
character prints invalid JSON that serde rejects.) -/
theorem C3_compact_roundtrip (schema : McpSchema)
    (hbuilt : schema.Built)
    (hname : NoControl schema.name)
    (hts : ∀ t ∈ schema.tools, NoControl t.name ∧
      (∀ d, t.description = some d → NoControl d) ∧
      (∀ a ∈ t.accounts, NoControl a.name) ∧
      (∀ g ∈ t.args, NoControl g.name)) :
    ∃ ps : ParsedSchema,
      decodeSchema (generate_compact_schema schema) = some ps ∧
      ps.tools.map ParsedTool.name = schema.tools.map McpTool.name ∧
      ps.tools.map ParsedTool.discriminator_bytes =
        schema.tools.map (fun t => DiscResult.ok t.discriminator) ∧
      ps.tools.map ParsedTool.required_params =
        schema.tools.map (fun t =>
          t.accounts.map (fun a => a.name ++ a.suffix) ++
          t.args.map (fun g => g.name)) := by
  refine ⟨expectedSchema schema, decodeSchema_compact schema hname hts, ?_, ?_, ?_⟩
  · rw [show (expectedSchema schema).tools = schema.tools.map expectedTool from rfl]
    rw [List.map_map]
    apply List.map_congr_left
    intro t _
    rfl
  · rw [show (expectedSchema schema).tools = schema.tools.map expectedTool from rfl]
    rw [List.map_map]
    apply List.map_congr_left
    intro t ht
    have hb := hbuilt t ht
    show (expectedTool t).discriminator_bytes = DiscResult.ok t.discriminator
    apply discBytes_expected
    · rw [hb]; exact instruction_discriminator_length t.name
    · rw [hb]; exact instruction_discriminator_lt256 t.name
  · rw [show (expectedSchema schema).tools = schema.tools.map expectedTool from rfl]
    rw [List.map_map]
    apply List.map_congr_left
    intro t _
    show (expectedTool t).required_params = _
    rw [required_params_expected t, requiredKeyStrings_eq t]

/-- A built schema whose only tool carries a control character in its name:
the original, unconditional round-trip claim fails on it. -/
def c3Bad : McpSchema :=
  ⟨"s", [buildTool "\x01" none [] []]⟩

/-- The original claim is false without the control-character condition: the
compact encoding of `c3Bad` (a builder-built schema) is rejected by the
client's JSON parser, so no tools round-trip at all. -/
theorem C3_control_name_rejected :
    c3Bad.Built ∧ decodeSchema (generate_compact_schema c3Bad) = none :=
  ⟨fun t ht => by rcases List.mem_singleton.mp ht with rfl; rfl, rfl⟩

/-- A concrete built schema exercising every feature: description, signer and
writable accounts, a typed argument. -/
def c3Schema : McpSchema :=
  ⟨"example",
   [buildTool "transfer" (some "Transfer tokens")
      [⟨"from", none, true, true⟩, ⟨"to", none, false, true⟩]
      [⟨"amount", none, ArgType.u64⟩]]⟩

/-- Witness: the round-trip theorem applied to `c3Schema`, every hypothesis
discharged concretely. -/
theorem C3_witness :
    ∃ ps : ParsedSchema,
      decodeSchema (generate_compact_schema c3Schema) = some ps ∧
      ps.tools.map ParsedTool.name = c3Schema.tools.map McpTool.name ∧
      ps.tools.map ParsedTool.discriminator_bytes =
        c3Schema.tools.map (fun t => DiscResult.ok t.discriminator) ∧
      ps.tools.map ParsedTool.required_params =
        c3Schema.tools.map (fun t =>
          t.accounts.map (fun a => a.name ++ a.suffix) ++
          t.args.map (fun g => g.name)) :=
  C3_compact_roundtrip c3Schema
    (fun t ht => by rcases List.mem_singleton.mp ht with rfl; rfl)
    (by decide)
    (by
      intro t ht
      rcases List.mem_singleton.mp ht with rfl
      refine ⟨by decide, ?_, by decide, by decide⟩
      intro d hd
      cases hd
      decide)
